import Mathlib

/-!
Verification of the markdown-normalization and PDF-compilation pipeline of
`PDFGeneratorTool` (src/src/main.py) against its natural-language
specification.

The Python code is shallowly embedded: strings are Lean `String`s, and the
regular-expression passes of the source are embedded as explicit scanning
functions that reproduce Python's `re` semantics for the exact patterns used
(leftmost non-overlapping matches, `(?m)` line anchoring, greedy quantifiers
with backtracking, `\s` matching newlines).  Fuel arguments make each
scanner structurally recursive; every call site supplies fuel equal to the
input length, which is always sufficient because every match consumes at
least one character.
-/

namespace PDFReport

/-- Python whitespace (`str.strip`, regex `\s`), ASCII range. -/
def pyIsSpace (c : Char) : Bool :=
  c = ' ' || c = '\t' || c = '\n' || c = '\r' || c = '\x0b' || c = '\x0c'

/-- Python regex word character (`\w` / `\b` boundary), ASCII range. -/
def isWordChar (c : Char) : Bool := c.isAlphanum || c = '_'

/-- Tag characters of the code-fence pattern (```[a-zA-Z0-9_-]*`). -/
def isTagChar (c : Char) : Bool := c.isAlphanum || c = '_' || c = '-'

/-- Drop leading Python whitespace (char-list form of `lstrip`). -/
def pyStripL (cs : List Char) : List Char := cs.dropWhile pyIsSpace

/-- Drop trailing Python whitespace (char-list form of `rstrip`). -/
def pyStripR (cs : List Char) : List Char := (cs.reverse.dropWhile pyIsSpace).reverse

/-- Char-list form of Python `str.strip()`. -/
def pyStripCore (cs : List Char) : List Char := pyStripR (pyStripL cs)

/-- Python `str.strip()`. -/
def pyStrip (s : String) : String := ⟨pyStripCore s.data⟩

/-- Python `str.rstrip()`. -/
def pyRstrip (s : String) : String := ⟨pyStripR s.data⟩

/-- Python `str.rstrip("\n")`: remove only trailing newline characters. -/
def rstripNewlines (s : String) : String :=
  ⟨(s.data.reverse.dropWhile (· = '\n')).reverse⟩

/-- Match a case-sensitive literal at the head; on success return the rest. -/
def dropLit : List Char → List Char → Option (List Char)
  | [], cs => some cs
  | _ :: _, [] => none
  | p :: ps, c :: cs => if c = p then dropLit ps cs else none

/-- Match a case-insensitive literal at the head; on success return the rest. -/
def dropLitCI : List Char → List Char → Option (List Char)
  | [], cs => some cs
  | _ :: _, [] => none
  | p :: ps, c :: cs => if c.toLower = p.toLower then dropLitCI ps cs else none

/-- Python `str.replace(pat, repl)` (all non-overlapping occurrences, left to
right), on char lists with a fuel argument; fuel = input length suffices
whenever `pat` is nonempty. -/
def pyReplaceCore (pat repl : List Char) : Nat → List Char → List Char
  | _, [] => []
  | 0, cs => cs
  | fuel + 1, c :: rest =>
    match dropLit pat (c :: rest) with
    | some rem =>
      if pat.isEmpty then c :: pyReplaceCore pat repl fuel rest
      else repl ++ pyReplaceCore pat repl fuel rem
    | none => c :: pyReplaceCore pat repl fuel rest

/-- Python `str.replace(pat, repl)` for a nonempty pattern. -/
def pyReplace (pat repl s : String) : String :=
  ⟨pyReplaceCore pat.data repl.data s.data.length s.data⟩

/-- The line-ending canonicalization done at the top of every text stage:
`s.replace("\r\n", "\n").replace("\r", "\n")`. -/
def canonNL (s : String) : String :=
  pyReplace "\r" "\n" (pyReplace "\r\n" "\n" s)

/-- Python `s.split("\n")` on a char list (never returns `[]`). -/
def splitLines : List Char → List (List Char)
  | [] => [[]]
  | c :: rest =>
    if c = '\n' then [] :: splitLines rest
    else
      match splitLines rest with
      | l :: ls => (c :: l) :: ls
      | [] => [[c]]

/-- Python `s.split("\n")` as strings. -/
def splitLinesS (s : String) : List String := (splitLines s.data).map fun l => ⟨l⟩

/-- Python `"\n".join(lines)`. -/
def joinLinesS : List String → String
  | [] => ""
  | [l] => l
  | l :: ls => l ++ "\n" ++ joinLinesS ls

/-- `\s+\S` after the current position: at least one whitespace character,
followed (after the whitespace run) by some non-whitespace character. -/
def wsThenNonWs (cs : List Char) : Bool :=
  match cs with
  | c :: _ => pyIsSpace c && !(cs.dropWhile pyIsSpace).isEmpty
  | [] => false

/-- `_unwrap_hardwrap_paragraphs.is_heading`:
`re.match(r"^\s*#{1,6}\s+\S", line)`. -/
def is_heading (line : String) : Bool :=
  let r := line.data.dropWhile pyIsSpace
  let hs := r.takeWhile (· = '#')
  !hs.isEmpty && decide (hs.length ≤ 6) && wsThenNonWs (r.dropWhile (· = '#'))

/-- `_unwrap_hardwrap_paragraphs.is_list`:
`re.match(r"^\s*([-*+•]|\d+[.)])\s+\S", line)`. -/
def is_list (line : String) : Bool :=
  let r := line.data.dropWhile pyIsSpace
  match r with
  | c :: rest =>
    if c = '-' || c = '*' || c = '+' || c = '•' then wsThenNonWs rest
    else if c.isDigit then
      match r.dropWhile Char.isDigit with
      | d :: rest3 => (d = '.' || d = ')') && wsThenNonWs rest3
      | [] => false
    else false
  | [] => false

/-- Flush the paragraph accumulator (`if buf: out.append(buf.strip())`). -/
def unwrapFlush (buf : String) : List String := if buf = "" then [] else [pyStrip buf]

/-- The line loop of `_unwrap_hardwrap_paragraphs`: blank lines and
structural lines flush the accumulator; plain-text lines are appended to it
separated by a single space. -/
def unwrapGo : List String → String → List String
  | [], buf => unwrapFlush buf
  | raw :: rest, buf =>
    let line := pyRstrip raw
    if pyStrip line = "" then unwrapFlush buf ++ "" :: unwrapGo rest ""
    else if is_heading line || is_list line then
      unwrapFlush buf ++ pyStrip line :: unwrapGo rest ""
    else unwrapGo rest (if buf = "" then pyStrip line else buf ++ " " ++ pyStrip line)

/-- Replace a run of `n` newlines according to `re.sub(r"\n{3,}", "\n\n", ·)`. -/
def collapseEmit (n : Nat) : List Char :=
  if 3 ≤ n then ['\n', '\n'] else List.replicate n '\n'

/-- Scanner for `re.sub(r"\n{3,}", "\n\n", ·)`; `pending` counts the newlines
of the run currently being read. -/
def collapseGo : List Char → Nat → List Char
  | [], pending => collapseEmit pending
  | c :: rest, pending =>
    if c = '\n' then collapseGo rest (pending + 1)
    else collapseEmit pending ++ c :: collapseGo rest 0

/-- `re.sub(r"\n{3,}", "\n\n", s)`. -/
def collapseNL (s : String) : String := ⟨collapseGo s.data 0⟩

/-- `PDFGeneratorTool._unwrap_hardwrap_paragraphs`. -/
def unwrap_hardwrap_paragraphs (s : String) : String :=
  let s1 := canonNL s
  pyStrip (collapseNL (joinLinesS (unwrapGo (splitLinesS s1) "")))

/-!
Generic `re.sub` drivers.  A matcher takes the suffix at the current scan
position and, on success, returns the replacement together with the suffix
remaining after the match.  `subLineAnchored` only attempts matches at line
starts (`(?m)^` anchored patterns); `subAnywhere` attempts them at every
position.  A match of zero characters is treated as failure (none of the
embedded patterns can match the empty string).
-/

/-- Driver for `re.sub` with a `(?m)^`-anchored pattern. -/
def subLineAnchored (m : List Char → Option (List Char × List Char)) :
    Nat → Bool → List Char → List Char
  | 0, _, cs => cs
  | _ + 1, _, [] => []
  | fuel + 1, atStart, c :: rest =>
    if atStart then
      match m (c :: rest) with
      | some (repl, rem) =>
        let k := (c :: rest).length - rem.length
        if k = 0 then c :: subLineAnchored m fuel (c = '\n') rest
        else repl ++ subLineAnchored m fuel (List.getD (c :: rest) (k - 1) 'x' = '\n') rem
      | none => c :: subLineAnchored m fuel (c = '\n') rest
    else c :: subLineAnchored m fuel (c = '\n') rest

/-- Driver for `re.sub` with an unanchored pattern. -/
def subAnywhere (m : List Char → Option (List Char × List Char)) :
    Nat → List Char → List Char
  | 0, cs => cs
  | _ + 1, [] => []
  | fuel + 1, c :: rest =>
    match m (c :: rest) with
    | some (repl, rem) =>
      let k := (c :: rest).length - rem.length
      if k = 0 then c :: subAnywhere m fuel rest
      else repl ++ subAnywhere m fuel rem
    | none => c :: subAnywhere m fuel rest

/-- Trailing `\s*$` with `(?m)`: greedily consume whitespace, backtracking
until the scan position sits at the end of input or just before a `'\n'`.
Returns the remaining suffix on success. -/
def trailingWsDollar (cs : List Char) : Option (List Char) :=
  let w := cs.takeWhile pyIsSpace
  let a := cs.dropWhile pyIsSpace
  if a.isEmpty then some []
  else
    let t := (w.reverse.takeWhile (· ≠ '\n')).length
    if t = w.length then none
    else some (w.drop (w.length - 1 - t) ++ a)

/-- Matcher for `(?m)^\s*Page\s+\d+\s*$` (replacement is empty). -/
def pageMatcher (cs : List Char) : Option (List Char × List Char) :=
  match dropLit "Page".data (cs.dropWhile pyIsSpace) with
  | none => none
  | some r2 =>
    match r2 with
    | [] => none
    | c :: _ =>
      if pyIsSpace c then
        let r3 := r2.dropWhile pyIsSpace
        match r3 with
        | [] => none
        | d :: _ =>
          if d.isDigit then
            (trailingWsDollar (r3.dropWhile Char.isDigit)).map fun rem => ([], rem)
          else none
      else none

/-- `PDFGeneratorTool._strip_page_markers`:
`re.sub(r"(?m)^\s*Page\s+\d+\s*$", "", s)`. -/
def strip_page_markers (s : String) : String :=
  ⟨subLineAnchored pageMatcher s.data.length true s.data⟩

/-- Matcher for `(?mi)^\s*{w}\s*$` with replacement `repl` (the
section-title promotion patterns; `w` is a plain word). -/
def sectionMatcher (w repl : List Char) (cs : List Char) :
    Option (List Char × List Char) :=
  match dropLitCI w (cs.dropWhile pyIsSpace) with
  | none => none
  | some r2 => (trailingWsDollar r2).map fun rem => (repl, rem)

/-- One pass `re.sub(rf"(?mi)^\s*{w}\s*$", f"## {w}", s)`. -/
def promoteWord (w : String) (s : String) : String :=
  ⟨subLineAnchored (sectionMatcher w.data ("## " ++ w).data) s.data.length true s.data⟩

/-- The fixed vocabulary of `_normalize_markdown` step 3. -/
def section_words : List String :=
  ["Overview", "Features", "Risks", "Competitors", "Conclusion"]

/-- `_normalize_markdown` step 3: promote standalone section lines. -/
def promoteSections (s : String) : String :=
  section_words.foldl (fun acc w => promoteWord w acc) s

/-- Matcher for `(?m)^\s*•\s+` with replacement `"- "`. -/
def bulletDotMatcher (cs : List Char) : Option (List Char × List Char) :=
  match cs.dropWhile pyIsSpace with
  | '•' :: r2 =>
    match r2 with
    | c :: _ => if pyIsSpace c then some ("- ".data, r2.dropWhile pyIsSpace) else none
    | [] => none
  | _ => none

/-- Matcher for `(?m)^\s*(\d+)\)\s+` with replacement `"\1. "`. -/
def numParenMatcher (cs : List Char) : Option (List Char × List Char) :=
  let r1 := cs.dropWhile pyIsSpace
  let d := r1.takeWhile Char.isDigit
  if d.isEmpty then none
  else
    match r1.dropWhile Char.isDigit with
    | ')' :: r3 =>
      match r3 with
      | c :: _ => if pyIsSpace c then some (d ++ ". ".data, r3.dropWhile pyIsSpace) else none
      | [] => none
    | _ => none

/-- Matcher for `(?m)^(#{1,6}\s+.+)$` with replacement `"\1\n"`.  `.` does
not match `'\n'`, so `.+$` consumes to the end of the current line; when the
whitespace run after the hashes reaches the end of input, `\s+` backtracks
so that `.+` can still take the last non-newline whitespace character. -/
def headingNLMatcher (cs : List Char) : Option (List Char × List Char) :=
  let hs := cs.takeWhile (· = '#')
  let r1 := cs.dropWhile (· = '#')
  if hs.isEmpty || decide (6 < hs.length) then none
  else
    let w := r1.takeWhile pyIsSpace
    let a := r1.dropWhile pyIsSpace
    if w.isEmpty then none
    else if !a.isEmpty then
      let content := a.takeWhile (· ≠ '\n')
      some (hs ++ w ++ content ++ ['\n'], a.dropWhile (· ≠ '\n'))
    else
      let t := ((w.drop 1).reverse.takeWhile (· = '\n')).length
      if t = w.length - 1 then none
      else some (hs ++ w.take (w.length - t) ++ ['\n'], w.drop (w.length - t))

/-- Matcher for the fence-opening pattern ` ```[a-zA-Z0-9_-]*\n? `
(replacement is empty). -/
def fenceMatcher (cs : List Char) : Option (List Char × List Char) :=
  match cs with
  | '`' :: '`' :: '`' :: r =>
    match r.dropWhile isTagChar with
    | '\n' :: r3 => some ([], r3)
    | r2 => some ([], r2)
  | _ => none

/-- Matcher for ` ``\s*markdown\s* ` (case-insensitive, replacement empty). -/
def mdTickMatcher (cs : List Char) : Option (List Char × List Char) :=
  match cs with
  | '`' :: '`' :: r =>
    match dropLitCI "markdown".data (r.dropWhile pyIsSpace) with
    | some r3 => some ([], r3.dropWhile pyIsSpace)
    | none => none
  | _ => none

/-!  `PDFGeneratorTool._standardize_tool_list_section`. -/

/-- The section-title literal. -/
def libTok : List Char := "Libraries and Tools".data

/-- `_standardize_tool_list_section.is_heading`:
`re.match(r"^\s*#{1,6}\s+\S", l.strip())`. -/
def std_is_heading (l : String) : Bool := is_heading (pyStrip l)

/-- `_standardize_tool_list_section.is_list_item`:
`re.match(r"^\s*([-*+]|\d+\.)\s+\S", l.strip())` (no `•`, no `1)` form). -/
def std_is_list_item (l : String) : Bool :=
  let r := (pyStripCore l.data).dropWhile pyIsSpace
  match r with
  | c :: rest =>
    if c = '-' || c = '*' || c = '+' then wsThenNonWs rest
    else if c.isDigit then
      match r.dropWhile Char.isDigit with
      | '.' :: rest3 => wsThenNonWs rest3
      | _ => false
    else false
  | [] => false

/-- `_standardize_tool_list_section.clean_bullet_prefix` (the source name
ends in a reserved word): `re.sub(r"^\s*[•\-*+]\s+", "", l.strip())` — at
most one leading bullet glyph plus its following whitespace run is removed
from the stripped line. -/
def clean_bullet (l : String) : String :=
  let t := pyStripCore l.data
  ⟨match t with
    | c :: r =>
      if c = '•' || c = '-' || c = '*' || c = '+' then
        match r with
        | d :: _ => if pyIsSpace d then r.dropWhile pyIsSpace else t
        | [] => t
      else t
    | [] => []⟩

/-- `\b`-bounded case-insensitive opener alternative of the tool-name and
description heuristics. -/
def openerAlt (w t : List Char) : Bool :=
  match dropLitCI w t with
  | some [] => true
  | some (c :: _) => !isWordChar c
  | none => false

/-- The opener alternatives of
`re.match(r"^(A|An|The|This|It|Used|Provides|Part|A part)\b", t, re.I)`
(tool-name variant includes `This` and `It`). -/
def nameOpeners : List (List Char) :=
  ["A".data, "An".data, "The".data, "This".data, "It".data,
   "Used".data, "Provides".data, "Part".data, "A part".data]

/-- The opener alternatives of
`re.match(r"^(A|An|The|Used|Provides|Part|A part)\b", t, re.I)`
(description variant). -/
def descOpeners : List (List Char) :=
  ["A".data, "An".data, "The".data, "Used".data, "Provides".data,
   "Part".data, "A part".data]

/-- Last character ends in sentence-final punctuation:
`re.search(r"[。.!?]$", t)`. -/
def endsSentencePunct (t : List Char) : Bool :=
  match t.getLast? with
  | some c => c = '。' || c = '.' || c = '!' || c = '?'
  | none => false

/-- `_standardize_tool_list_section.looks_like_tool_name`. -/
def looks_like_tool_name (l : String) : Bool :=
  let t := pyStrip l
  if t.data.isEmpty then false
  else if std_is_heading t || std_is_list_item t then false
  else if decide (60 < t.data.length) then false
  else if endsSentencePunct t.data then false
  else if nameOpeners.any (fun w => openerAlt w t.data) then false
  else true

/-- `_standardize_tool_list_section.looks_like_description`. -/
def looks_like_description (l : String) : Bool :=
  let t := clean_bullet l
  if t.data.isEmpty then false
  else if std_is_heading t || std_is_list_item t then false
  else decide (30 < t.data.length) || descOpeners.any (fun w => openerAlt w t.data)

/-- `re.search(r"(?i)Libraries and Tools", stripped)`:
case-insensitive substring containment. -/
def containsCI (hay needle : List Char) : Bool :=
  (List.range (hay.length + 1)).any fun i => (dropLitCI needle (hay.drop i)).isSome

/-- The section-title test of the standardizer, applied to the stripped
line: `re.match(r"(?i)^\s*##\s*Libraries and Tools\s*$", stripped)` or
`re.match(r"(?i)^\s*Libraries and Tools\s*$", stripped)`. -/
def isTitleLine (stripped : String) : Bool :=
  let t := stripped.data
  (match t.dropWhile pyIsSpace with
    | '#' :: '#' :: r =>
      match dropLitCI libTok (r.dropWhile pyIsSpace) with
      | some rest => rest.all pyIsSpace
      | none => false
    | _ => false)
  ||
  (match dropLitCI libTok (t.dropWhile pyIsSpace) with
    | some rest => rest.all pyIsSpace
    | none => false)

/-- The canonical bullet `- **<name>**: <description>`. -/
def toolBullet (name desc : String) : String := "- **" ++ name ++ "**: " ++ desc

/-- The name-only bullet `- **<name>**`. -/
def toolBulletName (name : String) : String := "- **" ++ name ++ "**"

/-- The `while` loop of `_standardize_tool_list_section`; the boolean is
`in_lib_section`. -/
def stdGo : Bool → List String → List String
  | _, [] => []
  | inLib, line :: rest =>
    let stripped := pyStrip line
    if isTitleLine stripped then "## Libraries and Tools" :: stdGo true rest
    else
      let inLib2 := inLib && !(std_is_heading line && !containsCI stripped.data libTok)
      if !inLib2 then line :: stdGo inLib2 rest
      else if stripped = "" then "" :: stdGo inLib2 rest
      else
        let candidate := clean_bullet line
        if std_is_list_item line then line :: stdGo inLib2 rest
        else if looks_like_tool_name candidate then
          match rest with
          | next :: rest2 =>
            if pyStrip next ≠ "" && looks_like_description next then
              toolBullet candidate (clean_bullet next) :: stdGo inLib2 rest2
            else toolBulletName candidate :: stdGo inLib2 (next :: rest2)
          | [] => toolBulletName candidate :: stdGo inLib2 []
        else candidate :: stdGo inLib2 rest

/-- `PDFGeneratorTool._standardize_tool_list_section`. -/
def standardize_tool_list_section (md : String) : String :=
  joinLinesS (stdGo false (splitLinesS (canonNL md)))

/-- `PDFGeneratorTool._normalize_markdown`: the full stage sequence. -/
def normalize_markdown (s : String) : String :=
  if s = "" then ""
  else
    let s1 := canonNL s
    let s2 := strip_page_markers s1
    let s3 : String := ⟨subAnywhere fenceMatcher s2.data.length s2.data⟩
    let s4 := pyReplace "```" "" s3
    let s5 : String := ⟨subAnywhere mdTickMatcher s4.data.length s4.data⟩
    let s6 := pyReplace "``" "" s5
    let s7 := unwrap_hardwrap_paragraphs s6
    let s8 := standardize_tool_list_section s7
    let s9 := promoteSections s8
    let s10 : String := ⟨subLineAnchored bulletDotMatcher s9.data.length true s9.data⟩
    let s11 : String := ⟨subLineAnchored numParenMatcher s10.data.length true s10.data⟩
    let s12 : String := ⟨subLineAnchored headingNLMatcher s11.data.length true s11.data⟩
    pyStrip (collapseNL s12)

/-!
The document compiler `PDFGeneratorTool._run`.  The filesystem is modelled
as a finite map from paths to file contents, the external markdown renderer
(`markdown.markdown`) as an abstract function `mdRender`, and the external
PDF renderer (`pisa.CreatePDF`) as an abstract error count
`pisaErr : String → Nat` of the assembled html (`pisa_status.err` is falsy
exactly when it is `0`).  `pisa` writes the output file before the error
check, so the artifact write is modelled unconditionally.
-/

/-- Escape of one character under Python `html.escape` (quote=True). -/
def htmlEscapeChar (c : Char) : List Char :=
  if c = '&' then "&amp;".data
  else if c = '<' then "&lt;".data
  else if c = '>' then "&gt;".data
  else if c = '"' then "&quot;".data
  else if c = '\x27' then "&#x27;".data
  else [c]

/-- Python `html.escape(s)` on char lists. -/
def htmlEscapeCore : List Char → List Char
  | [] => []
  | c :: r => htmlEscapeChar c ++ htmlEscapeCore r

/-- Python `html.escape(s)` (quote=True). -/
def htmlEscape (s : String) : String := ⟨htmlEscapeCore s.data⟩

/-- The `css_style` constant of `_run`. -/
def cssStyle : String :=
  "\n            <style>\n                @page \x7b\n                    size: A4;\n" ++
  "                    margin: 2cm;\n                    @frame footer_frame \x7b\n" ++
  "                        -pdf-frame-content: footerContent;\n" ++
  "                        bottom: 1cm;\n                        margin-left: 2cm;\n" ++
  "                        margin-right: 2cm;\n                        height: 1cm;\n" ++
  "                    \x7d\n                \x7d\n\n                body \x7b\n" ++
  "                    font-family: Helvetica, sans-serif;\n" ++
  "                    font-size: 10pt;\n                    line-height: 1.45;\n" ++
  "                    color: #333;\n                \x7d\n\n                h1 \x7b\n" ++
  "                    color: #2c3e50;\n" ++
  "                    border-bottom: 2px solid #2c3e50;\n" ++
  "                    padding-bottom: 5px;\n                    margin-top: 10px;\n" ++
  "                    margin-bottom: 12px;\n                    font-size: 18pt;\n" ++
  "                    font-weight: bold;\n                \x7d\n\n                h2 \x7b\n" ++
  "                    color: #e67e22;\n                    margin-top: 12px;\n" ++
  "                    margin-bottom: 8px;\n" ++
  "                    border-bottom: 1px solid #eee;\n                    font-size: 14pt;\n" ++
  "                    font-weight: bold;\n                \x7d\n\n                h3 \x7b\n" ++
  "                    color: #2c3e50;\n                    margin-top: 10px;\n" ++
  "                    margin-bottom: 6px;\n                    font-size: 12pt;\n" ++
  "                    font-weight: bold;\n                \x7d\n\n" ++
  "                strong, b \x7b font-weight: bold; color: #000; \x7d\n\n" ++
  "                p \x7b margin: 0 0 8px 0; \x7d\n\n" ++
  "                ul, ol \x7b margin: 0 0 10px 0; padding-left: 18px; \x7d\n" ++
  "                li \x7b margin: 0 0 3px 0; \x7d\n\n                code \x7b\n" ++
  "                    font-family: Courier, monospace;\n" ++
  "                    font-size: 9pt;\n                    background: #f2f2f2;\n" ++
  "                    padding: 1px 3px;\n                    border-radius: 2px;\n" ++
  "                \x7d\n\n                pre.code-box \x7b\n" ++
  "                    font-family: Courier, monospace;\n" ++
  "                    font-size: 9pt;\n                    background-color: #282c34;\n" ++
  "                    color: #ffffff;\n                    border: 1px solid #ddd;\n" ++
  "                    padding: 10px;\n                    margin-top: 10px;\n" ++
  "                    line-height: 1.25;\n                    border-radius: 4px;\n" ++
  "                    white-space: pre;\n                \x7d\n            </style>\n" ++
  "            "

/-- The page-number footer div appended to `html_parts`. -/
def footerDiv : String :=
  "<div id=\"footerContent\" style=\"text-align:center; font-size:9pt; color:#777;\">" ++
  "Page <pdf:pagenumber></div>"

/-- The `(file path, section title)` pairs of `_run`. -/
def file_map : List (String × String) :=
  [("lite_output/1_spec.md", "Phase 1: Product Specification"),
   ("lite_output/2_tech_stack.md", "Phase 2: Tech Stack")]

/-- The raw-code file path. -/
def code_path : String := "lite_output/3_mvp_skeleton.md"

/-- The intermediate files deleted by `_run` after a successful render. -/
def intermediate_files : List String :=
  ["lite_output/1_spec.md", "lite_output/2_tech_stack.md", "lite_output/3_mvp_skeleton.md"]

/-- Filesystem model: a finite map from paths to text contents. -/
structure FS where
  files : List (String × String)

/-- `os.path.exists`. -/
def FS.exists? (fs : FS) (p : String) : Bool := fs.files.any fun kv => kv.1 == p

/-- Whole-file read (defaults to `""`; `_run` only reads existing files). -/
def FS.read (fs : FS) (p : String) : String :=
  ((fs.files.find? fun kv => kv.1 == p).map Prod.snd).getD ""

/-- Whole-file write (create or overwrite). -/
def FS.write (fs : FS) (p content : String) : FS :=
  ⟨(p, content) :: fs.files.filter fun kv => !(kv.1 == p)⟩

/-- `os.remove`. -/
def FS.remove (fs : FS) (p : String) : FS :=
  ⟨fs.files.filter fun kv => !(kv.1 == p)⟩

/-- `PDFGeneratorTool._render_markdown_to_html`: normalize, then hand to the
external markdown renderer. -/
def render_markdown_to_html (mdRender : String → String) (md_text : String) : String :=
  mdRender (normalize_markdown md_text)

/-- The code-fence stripping of `_run` on the raw-code file: strip the whole
text, and if it starts with ` ``` ` and has at least two lines, drop the
first and last line and right-strip newlines from the rest. -/
def stripCodeFence (raw : String) : String :=
  let raw_code := pyStrip raw
  if (dropLit "```".data raw_code.data).isSome then
    let lines := splitLinesS raw_code
    if 2 ≤ lines.length then rstripNewlines (joinLinesS ((lines.drop 1).dropLast))
    else raw_code
  else raw_code

/-- The parts emitted for one `(filepath, section_title)` entry of
`file_map` when the file exists (nothing otherwise). -/
def sectionPart (mdRender : String → String) (fs : FS) (fp title : String) : String :=
  if fs.exists? fp then
    "<h2>" ++ htmlEscape title ++ "</h2>" ++
      render_markdown_to_html mdRender (fs.read fp) ++ "<pdf:nextpage />"
  else ""

/-- The parts emitted for the raw-code file when it exists: the code is
escaped into a preformatted block, never run through normalization. -/
def codeSection (fs : FS) : String :=
  if fs.exists? code_path then
    "<h2>Phase 3: MVP Skeleton Code</h2>" ++
      "<pre class=\x27code-box\x27>" ++ htmlEscape (stripCodeFence (fs.read code_path)) ++ "</pre>"
  else ""

/-- Assembly of `full_html` from `html_parts` in `_run` (the loop over
`file_map` is unrolled over its two entries). -/
def buildHtml (mdRender : String → String) (fs : FS) : String :=
  "<html><head>" ++ cssStyle ++ "</head><body>" ++ footerDiv ++
    "<h1>Project Final Report</h1><p>Generated by SaaS Launchpad Crew</p>" ++ "<hr>" ++
    sectionPart mdRender fs "lite_output/1_spec.md" "Phase 1: Product Specification" ++
    sectionPart mdRender fs "lite_output/2_tech_stack.md" "Phase 2: Tech Stack" ++
    codeSection fs ++ "</body></html>"

/-- `PDFGeneratorTool._run`: assemble the html, hand it to the renderer, and
on success delete the consumed intermediate files.  Returns the tool message
and the final filesystem. -/
def pdfRun (mdRender : String → String) (pisaErr : String → Nat) (fs : FS)
    (output_filename : String) : String × FS :=
  let full_html := buildHtml mdRender fs
  let fs1 := fs.write output_filename full_html
  if pisaErr full_html ≠ 0 then
    ("Error creating PDF: " ++ toString (pisaErr full_html), fs1)
  else
    ("Successfully compiled PDF report at: " ++ output_filename,
     intermediate_files.foldl (fun acc p => if acc.exists? p then acc.remove p else acc) fs1)

/-!  Basic lemmas about whitespace stripping, line splitting and joining. -/

theorem dropWhile_append_all {p : Char → Bool} {t : List Char} (u : List Char)
    (h : ∀ x ∈ t, p x = true) : (t ++ u).dropWhile p = u.dropWhile p := by
  induction t with
  | nil => rfl
  | cons a t ih =>
    simp only [List.cons_append, List.dropWhile_cons, h a (by simp), if_true]
    exact ih fun x hx => h x (by simp [hx])

theorem dropWhile_cons_neg {p : Char → Bool} {a : Char} (l : List Char)
    (h : p a = false) : (a :: l).dropWhile p = a :: l := by
  simp [List.dropWhile_cons, h]

theorem takeWhile_all {p : Char → Bool} (l : List Char) :
    ∀ x ∈ l.takeWhile p, p x = true := fun _ hx => List.mem_takeWhile_imp hx

/-- Decomposition along `dropWhile`: a whitespace prefix plus the rest. -/
theorem dropWhile_decomp (p : Char → Bool) (l : List Char) :
    ∃ t, l = t ++ l.dropWhile p ∧ ∀ x ∈ t, p x = true :=
  ⟨l.takeWhile p, (List.takeWhile_append_dropWhile p l).symm, takeWhile_all l⟩

theorem pyStripL_append_all {t : List Char} (u : List Char)
    (h : ∀ x ∈ t, pyIsSpace x = true) : pyStripL (t ++ u) = pyStripL u :=
  dropWhile_append_all u h

theorem pyStripL_cons_neg {a : Char} (l : List Char) (h : pyIsSpace a = false) :
    pyStripL (a :: l) = a :: l := dropWhile_cons_neg l h

/-- Decomposition of `pyStripR`: the original is the stripped part plus a
whitespace suffix. -/
theorem pyStripR_decomp (l : List Char) :
    ∃ u, l = pyStripR l ++ u ∧ ∀ x ∈ u, pyIsSpace x = true := by
  refine ⟨(l.reverse.takeWhile pyIsSpace).reverse,
    ?_, fun x hx => takeWhile_all l.reverse x (by simpa using hx)⟩
  calc l = l.reverse.reverse := (List.reverse_reverse l).symm
    _ = (l.reverse.takeWhile pyIsSpace ++ l.reverse.dropWhile pyIsSpace).reverse := by
        rw [List.takeWhile_append_dropWhile]
    _ = pyStripR l ++ (l.reverse.takeWhile pyIsSpace).reverse := by
        rw [List.reverse_append]; rfl

theorem pyStripR_append_all {u : List Char} (t : List Char)
    (h : ∀ x ∈ u, pyIsSpace x = true) : pyStripR (t ++ u) = pyStripR t := by
  simp only [pyStripR, List.reverse_append]
  rw [dropWhile_append_all t.reverse (fun x hx => h x (by simpa using hx))]

theorem pyStripR_concat_neg {a : Char} (l : List Char) (h : pyIsSpace a = false) :
    pyStripR (l ++ [a]) = l ++ [a] := by
  simp only [pyStripR, List.reverse_append, List.reverse_cons, List.reverse_nil,
    List.nil_append, List.singleton_append]
  rw [dropWhile_cons_neg _ h, List.reverse_cons, List.reverse_reverse]

theorem length_dropWhile_le (p : Char → Bool) (l : List Char) :
    (l.dropWhile p).length ≤ l.length := by
  induction l with
  | nil => simp
  | cons a l ih =>
    rw [List.dropWhile_cons]
    by_cases h : p a = true
    · simp only [h, if_true]; exact Nat.le_succ_of_le ih
    · simp [h]

theorem head_dropWhile_neg {p : Char → Bool} {l r : List Char} {c : Char}
    (h : l.dropWhile p = c :: r) : p c = false := by
  induction l with
  | nil => simp at h
  | cons a l ih =>
    rw [List.dropWhile_cons] at h
    by_cases ha : p a = true
    · exact ih (by simpa [ha] using h)
    · rw [if_neg (by simp [ha])] at h
      cases h
      simpa using ha

theorem dropWhile_idem (p : Char → Bool) (l : List Char) :
    (l.dropWhile p).dropWhile p = l.dropWhile p := by
  cases h : l.dropWhile p with
  | nil => rfl
  | cons c r => rw [dropWhile_cons_neg _ (head_dropWhile_neg h)]

theorem dropWhile_append_left {p : Char → Bool} {a : List Char} (b : List Char)
    (h : a.dropWhile p ≠ []) : (a ++ b).dropWhile p = a.dropWhile p ++ b := by
  induction a with
  | nil => simp at h
  | cons x a ih =>
    rw [List.cons_append, List.dropWhile_cons, List.dropWhile_cons] at *
    by_cases hx : p x = true
    · simp only [hx, if_true] at h ⊢; exact ih h
    · simp [hx]

theorem all_ws_dropWhile_nil {l : List Char} (h : ∀ x ∈ l, pyIsSpace x = true) :
    l.dropWhile pyIsSpace = [] := by
  induction l with
  | nil => rfl
  | cons a l ih =>
    rw [List.dropWhile_cons, if_pos (by simp [h a (by simp)])]
    exact ih fun x hx => h x (by simp [hx])

theorem dropWhile_nil_all_ws {l : List Char} (h : l.dropWhile pyIsSpace = []) :
    ∀ x ∈ l, pyIsSpace x = true := by
  intro x hx
  have h2 := List.takeWhile_append_dropWhile (p := pyIsSpace) (l := l)
  rw [h, List.append_nil] at h2
  exact takeWhile_all l x (by rw [h2]; exact hx)

theorem pyStripL_idem (l : List Char) : pyStripL (pyStripL l) = pyStripL l :=
  dropWhile_idem pyIsSpace l

theorem pyStripR_idem (l : List Char) : pyStripR (pyStripR l) = pyStripR l := by
  simp only [pyStripR, List.reverse_reverse]
  rw [dropWhile_idem]

theorem pyStripR_all_ws {l : List Char} (h : ∀ x ∈ l, pyIsSpace x = true) :
    pyStripR l = [] := by
  simp only [pyStripR]
  rw [all_ws_dropWhile_nil fun x hx => h x (by simpa using hx)]
  rfl

theorem pyStripR_nonempty_of_head {c : Char} {r : List Char}
    (hc : pyIsSpace c = false) : pyStripR (c :: r) ≠ [] := by
  intro h
  have : ∀ x ∈ (c :: r).reverse, pyIsSpace x = true := by
    intro x hx
    have h2 : (c :: r).reverse.dropWhile pyIsSpace = [] := by
      have := congrArg List.reverse h
      simpa [pyStripR] using this
    exact dropWhile_nil_all_ws h2 x hx
  have := this c (by simp)
  rw [hc] at this
  exact Bool.false_ne_true this

/-- `pyStripR` keeps the head of a list whose head is not whitespace. -/
theorem pyStripR_cons_head {c : Char} {r : List Char} (hc : pyIsSpace c = false) :
    ∃ r2, pyStripR (c :: r) = c :: r2 := by
  obtain ⟨u, hu, _⟩ := pyStripR_decomp (c :: r)
  cases h : pyStripR (c :: r) with
  | nil => exact absurd h (pyStripR_nonempty_of_head hc)
  | cons d r2 =>
    rw [h] at hu
    cases hu
    exact ⟨r2, rfl⟩

/-- `pyStripL` and `pyStripR` commute. -/
theorem pyStripLR_comm (l : List Char) : pyStripL (pyStripR l) = pyStripR (pyStripL l) := by
  show (pyStripR l).dropWhile pyIsSpace = pyStripR (l.dropWhile pyIsSpace)
  cases h : l.dropWhile pyIsSpace with
  | nil =>
    have hall : ∀ x ∈ l, pyIsSpace x = true := dropWhile_nil_all_ws h
    rw [pyStripR_all_ws hall]
    simp [pyStripR]
  | cons c r =>
    have hc : pyIsSpace c = false := head_dropWhile_neg h
    obtain ⟨t, hsplit, ht⟩ := dropWhile_decomp pyIsSpace l
    have hR : pyStripR l = t ++ pyStripR (c :: r) := by
      conv_lhs => rw [hsplit, h]
      have hne : (c :: r).reverse.dropWhile pyIsSpace ≠ [] := by
        intro hnil
        apply pyStripR_nonempty_of_head hc
        show ((c :: r).reverse.dropWhile pyIsSpace).reverse = []
        rw [hnil]
        rfl
      simp only [pyStripR, List.reverse_append]
      rw [dropWhile_append_left t.reverse hne, List.reverse_append, List.reverse_reverse]
    rw [hR]
    obtain ⟨r2, hr2⟩ := pyStripR_cons_head hc
    rw [hr2]
    rw [dropWhile_append_all (c :: r2) ht, dropWhile_cons_neg _ hc]

theorem pyStripCore_idem (l : List Char) : pyStripCore (pyStripCore l) = pyStripCore l := by
  simp only [pyStripCore]
  rw [pyStripLR_comm, pyStripL_idem, pyStripR_idem]

/-- Stripping after right-stripping is plain stripping
(`line.rstrip().strip() == line.strip()`). -/
theorem pyStripCore_pyStripR (l : List Char) :
    pyStripCore (pyStripR l) = pyStripCore l := by
  simp only [pyStripCore]
  rw [pyStripLR_comm, pyStripR_idem]

theorem length_pyStripR_le (l : List Char) : (pyStripR l).length ≤ l.length := by
  simp only [pyStripR, List.length_reverse]
  calc (l.reverse.dropWhile pyIsSpace).length ≤ l.reverse.length :=
        length_dropWhile_le pyIsSpace l.reverse
    _ = l.length := List.length_reverse l

/-- A strip-fixed list is fixed under both one-sided strips. -/
theorem stripCore_self_parts {l : List Char} (h : pyStripCore l = l) :
    pyStripL l = l ∧ pyStripR l = l := by
  have hlen1 : (pyStripL l).length ≤ l.length := length_dropWhile_le pyIsSpace l
  have hlen2 : (pyStripR (pyStripL l)).length ≤ (pyStripL l).length :=
    length_pyStripR_le (pyStripL l)
  have hlen3 : l.length ≤ (pyStripR (pyStripL l)).length := by
    simp only [pyStripCore] at h
    rw [h]
  have hlenL : (pyStripL l).length = l.length := Nat.le_antisymm hlen1 (le_trans hlen3 hlen2)
  have hL : pyStripL l = l := by
    obtain ⟨t, hsplit, _⟩ := dropWhile_decomp pyIsSpace l
    have ht0 : t.length = 0 := by
      have := congrArg List.length hsplit
      simp only [List.length_append] at this
      simp only [pyStripL] at hlenL
      omega
    rw [List.length_eq_zero] at ht0
    rw [ht0, List.nil_append] at hsplit
    simp only [pyStripL]
    rw [← hsplit]
  refine ⟨hL, ?_⟩
  simp only [pyStripCore] at h
  rw [hL] at h
  exact h

theorem stripped_head {c : Char} {r : List Char} (h : pyStripCore (c :: r) = c :: r) :
    pyIsSpace c = false := by
  by_contra hc
  rw [Bool.not_eq_false] at hc
  have hL := (stripCore_self_parts h).1
  have : pyStripL (c :: r) = pyStripL r := by
    simp only [pyStripL, List.dropWhile_cons, hc, if_true]
  rw [this] at hL
  have h1 : (pyStripL r).length ≤ r.length := length_dropWhile_le pyIsSpace r
  have h2 := congrArg List.length hL
  simp only [List.length_cons] at h2
  omega

theorem stripped_last {x : List Char} {d : Char}
    (h : pyStripCore (x ++ [d]) = x ++ [d]) : pyIsSpace d = false := by
  by_contra hd
  rw [Bool.not_eq_false] at hd
  have hR := (stripCore_self_parts h).2
  have hrev : pyStripR (x ++ [d]) = pyStripR x := by
    simp only [pyStripR, List.reverse_append, List.reverse_cons, List.reverse_nil,
      List.nil_append, List.singleton_append, List.dropWhile_cons, hd, if_true]
  rw [hrev] at hR
  have h1 : (pyStripR x).length ≤ x.length := length_pyStripR_le x
  have h2 := congrArg List.length hR
  simp only [List.length_append, List.length_cons, List.length_nil] at h2
  omega

theorem exists_concat_of_ne_nil {l : List Char} (h : l ≠ []) :
    ∃ x d, l = x ++ [d] := by
  induction l with
  | nil => exact absurd rfl h
  | cons c r ih =>
    cases r with
    | nil => exact ⟨[], c, rfl⟩
    | cons c2 r2 =>
      obtain ⟨x, d, hx⟩ := ih (by simp)
      exact ⟨c :: x, d, by rw [hx]; rfl⟩

/-- Gluing two strip-fixed nonempty lists with a single space is strip-fixed. -/
theorem stripCore_glue {a b : List Char} (ha : pyStripCore a = a) (hna : a ≠ [])
    (hb : pyStripCore b = b) (hnb : b ≠ []) :
    pyStripCore (a ++ ' ' :: b) = a ++ ' ' :: b := by
  obtain ⟨c, ra, rfl⟩ : ∃ c ra, a = c :: ra := by
    cases a with
    | nil => exact absurd rfl hna
    | cons c ra => exact ⟨c, ra, rfl⟩
  obtain ⟨xb, d, rfl⟩ := exists_concat_of_ne_nil hnb
  have hc : pyIsSpace c = false := stripped_head ha
  have hd : pyIsSpace d = false := stripped_last hb
  have hL : pyStripL (c :: ra ++ ' ' :: (xb ++ [d])) = c :: ra ++ ' ' :: (xb ++ [d]) :=
    pyStripL_cons_neg _ hc
  have hshape : c :: ra ++ ' ' :: (xb ++ [d]) = (c :: ra ++ ' ' :: xb) ++ [d] := by
    simp
  simp only [pyStripCore]
  rw [hL, hshape, pyStripR_concat_neg _ hd]

/-- Elements of the stripped list come from the original list. -/
theorem mem_pyStripCore {x : Char} {l : List Char} (h : x ∈ pyStripCore l) : x ∈ l := by
  obtain ⟨t, hsplit, _⟩ := dropWhile_decomp pyIsSpace l
  obtain ⟨u, hu, _⟩ := pyStripR_decomp (pyStripL l)
  rw [hsplit]
  have : x ∈ pyStripL l := by
    rw [hu]
    exact List.mem_append_left _ h
  exact List.mem_append_right _ this

/-!  String-level corollaries. -/

theorem data_eq_of_eq {s t : String} (h : s = t) : s.data = t.data := congrArg String.data h

theorem str_ne_iff_data {s : String} : s ≠ "" ↔ s.data ≠ [] := by
  constructor
  · intro h hd
    exact h (String.ext hd)
  · intro h hs
    exact h (by rw [hs])

theorem pyStrip_idem (s : String) : pyStrip (pyStrip s) = pyStrip s :=
  String.ext (pyStripCore_idem s.data)

theorem pyStrip_pyRstrip (s : String) : pyStrip (pyRstrip s) = pyStrip s :=
  String.ext (pyStripCore_pyStripR s.data)

/-- Gluing two strip-fixed nonempty strings with `" "` is strip-fixed. -/
theorem pyStrip_glue {a b : String} (ha : pyStrip a = a) (hna : a ≠ "")
    (hb : pyStrip b = b) (hnb : b ≠ "") : pyStrip (a ++ " " ++ b) = a ++ " " ++ b := by
  apply String.ext
  show pyStripCore (a ++ " " ++ b).data = (a ++ " " ++ b).data
  have hdata : (a ++ " " ++ b).data = a.data ++ ' ' :: b.data := by
    rw [String.data_append, String.data_append]
    simp
  rw [hdata]
  exact stripCore_glue (data_eq_of_eq ha) (str_ne_iff_data.mp hna)
    (data_eq_of_eq hb) (str_ne_iff_data.mp hnb)

/-!  Splitting and joining lines. -/

theorem splitLines_noLF {l : List Char} (h : '\n' ∉ l) : splitLines l = [l] := by
  induction l with
  | nil => rfl
  | cons c r ih =>
    have hc : ¬c = '\n' := fun hc => h (by simp [hc])
    rw [splitLines, if_neg hc, ih (fun hr => h (List.mem_cons_of_mem c hr))]

theorem splitLines_append {a : List Char} (b : List Char) (h : '\n' ∉ a) :
    splitLines (a ++ '\n' :: b) = a :: splitLines b := by
  induction a with
  | nil => simp [splitLines]
  | cons c ra ih =>
    have hc : ¬c = '\n' := fun hc => h (by simp [hc])
    rw [List.cons_append, splitLines, if_neg hc,
      ih (fun hr => h (List.mem_cons_of_mem c hr))]

theorem joinLinesS_cons {l : String} {t : List String} (h : t ≠ []) :
    joinLinesS (l :: t) = l ++ "\n" ++ joinLinesS t := by
  cases t with
  | nil => exact absurd rfl h
  | cons l2 ls2 => rfl

theorem data_joinLinesS_cons {l : String} {t : List String} (h : t ≠ []) :
    (joinLinesS (l :: t)).data = l.data ++ '\n' :: (joinLinesS t).data := by
  rw [joinLinesS_cons h, String.data_append, String.data_append]
  simp

theorem splitLinesS_joinLinesS {ls : List String} (h : ls ≠ [])
    (h2 : ∀ l ∈ ls, '\n' ∉ l.data) : splitLinesS (joinLinesS ls) = ls := by
  induction ls with
  | nil => exact absurd rfl h
  | cons l ls ih =>
    cases ls with
    | nil =>
      show (splitLines (joinLinesS [l]).data).map (fun c => (⟨c⟩ : String)) = [l]
      rw [show joinLinesS [l] = l from rfl, splitLines_noLF (h2 l (by simp))]
      rfl
    | cons l2 ls2 =>
      show (splitLines (joinLinesS (l :: l2 :: ls2)).data).map (fun c => (⟨c⟩ : String))
        = l :: l2 :: ls2
      rw [data_joinLinesS_cons (by simp), splitLines_append _ (h2 l (by simp))]
      have ihx := ih (by simp) (fun x hx => h2 x (List.mem_cons_of_mem l hx))
      simp only [List.map_cons] at ihx ⊢
      rw [show ((⟨l.data⟩ : String) = l) from rfl]
      exact congrArg (l :: ·) ihx

/-- Lines produced by `splitLines` contain no newline characters. -/
theorem splitLines_no_nl (l : List Char) : ∀ x ∈ splitLines l, '\n' ∉ x := by
  induction l with
  | nil =>
    intro x hx
    simp only [splitLines, List.mem_singleton] at hx
    simp [hx]
  | cons c r ih =>
    intro x hx
    by_cases hc : c = '\n'
    · subst hc
      rw [splitLines, if_pos rfl] at hx
      rcases List.mem_cons.mp hx with h1 | h1
      · simp [h1]
      · exact ih x h1
    · rw [splitLines, if_neg hc] at hx
      cases hsp : splitLines r with
      | nil =>
        rw [hsp] at hx
        simp only [List.mem_singleton] at hx
        intro hmem
        rw [hx] at hmem
        simp only [List.mem_singleton] at hmem
        exact hc hmem.symm
      | cons y ys =>
        rw [hsp] at hx
        rcases List.mem_cons.mp hx with h1 | h1
        · subst h1
          intro hmem
          rcases List.mem_cons.mp hmem with h3 | h3
          · exact hc h3.symm
          · exact ih y (by rw [hsp]; exact List.mem_cons_self y ys) h3
        · exact ih x (by rw [hsp]; exact List.mem_cons_of_mem y h1)

/-!  Newline collapsing. -/

theorem collapseGo_noLF {cs : List Char} (h : ∀ c ∈ cs, ¬c = '\n') :
    collapseGo cs 0 = cs := by
  induction cs with
  | nil => rfl
  | cons c rest ih =>
    rw [collapseGo, if_neg (h c (by simp))]
    rw [ih (fun x hx => h x (List.mem_cons_of_mem c hx))]
    rfl

theorem collapseNL_noLF {s : String} (h : '\n' ∉ s.data) : collapseNL s = s :=
  String.ext (collapseGo_noLF fun _ hx heq => h (heq ▸ hx))

/-!  Line-ending canonicalization. -/

theorem replaceCore_head_notMem {c0 : Char} {pt repl : List Char} :
    ∀ (cs : List Char) (fuel : Nat), c0 ∉ cs →
      pyReplaceCore (c0 :: pt) repl fuel cs = cs := by
  intro cs
  induction cs with
  | nil => intro fuel _; cases fuel <;> rfl
  | cons c rest ih =>
    intro fuel h
    cases fuel with
    | zero => rfl
    | succ f =>
      have hc : ¬c = c0 := fun hc => h (by simp [hc])
      rw [pyReplaceCore, dropLit, if_neg hc]
      rw [ih f (fun hr => h (List.mem_cons_of_mem c hr))]

theorem canonNL_noCR {s : String} (h : '\r' ∉ s.data) : canonNL s = s := by
  have h1 : pyReplace "\r\n" "\n" s = s :=
    String.ext (replaceCore_head_notMem s.data s.data.length h)
  rw [canonNL, h1]
  exact String.ext (replaceCore_head_notMem s.data s.data.length h)

/-!  Identity lemmas for the `re.sub` drivers. -/

theorem subLineAnchored_nil (m : List Char → Option (List Char × List Char))
    (fuel : Nat) (st : Bool) : subLineAnchored m fuel st [] = [] := by
  cases fuel <;> rfl

theorem subLineAnchored_false_noLF {m : List Char → Option (List Char × List Char)}
    {cs : List Char} (fuel : Nat) (h : '\n' ∉ cs) :
    subLineAnchored m fuel false cs = cs := by
  induction cs generalizing fuel with
  | nil => cases fuel <;> rfl
  | cons c rest ih =>
    cases fuel with
    | zero => rfl
    | succ f =>
      rw [subLineAnchored, if_neg (by simp)]
      have hc : (c = '\n') = False := by
        simp only [eq_iff_iff, iff_false]
        exact fun hc => h (by simp [hc])
      rw [show (decide (c = '\n')) = false by simp [hc]]
      rw [ih f (fun hr => h (List.mem_cons_of_mem c hr))]

theorem subLineAnchored_true_none {m : List Char → Option (List Char × List Char)}
    {cs : List Char} (fuel : Nat) (h : '\n' ∉ cs) (hm : m cs = none) :
    subLineAnchored m fuel true cs = cs := by
  cases cs with
  | nil => cases fuel <;> rfl
  | cons c rest =>
    cases fuel with
    | zero => rfl
    | succ f =>
      rw [subLineAnchored, if_pos rfl, hm]
      have hc : (c = '\n') = False := by
        simp only [eq_iff_iff, iff_false]
        exact fun hc => h (by simp [hc])
      rw [show (decide (c = '\n')) = false by simp [hc]]
      rw [subLineAnchored_false_noLF f (fun hr => h (List.mem_cons_of_mem c hr))]

theorem subLineAnchored_true_all {m : List Char → Option (List Char × List Char)}
    {c : Char} {rest repl : List Char} (f : Nat)
    (hm : m (c :: rest) = some (repl, [])) :
    subLineAnchored m (f + 1) true (c :: rest) = repl := by
  rw [subLineAnchored, if_pos rfl, hm]
  simp only [List.length_nil, Nat.sub_zero, List.length_cons]
  rw [if_neg (by simp)]
  rw [subLineAnchored_nil, List.append_nil]

/-!  Reflow over a run of plain-text lines (claim C1). -/

/-- A plain-text line for the reflow engine: not blank, not a heading, not a
list item (as tested by the source on the right-stripped line), and free of
line-break characters. -/
def PlainLine (l : String) : Prop :=
  pyStrip l ≠ "" ∧ is_heading (pyRstrip l) = false ∧ is_list (pyRstrip l) = false ∧
  '\n' ∉ l.data ∧ '\r' ∉ l.data

instance : DecidablePred PlainLine := fun l => by
  unfold PlainLine
  infer_instance

/-- Joining a list of words with single spaces (the expected paragraph
shape). -/
def joinWords : List String → String
  | [] => ""
  | [w] => w
  | w :: ws => w ++ " " ++ joinWords ws

theorem joinWords_cons {w : String} {l : List String} (h : l ≠ []) :
    joinWords (w :: l) = w ++ " " ++ joinWords l := by
  cases l with
  | nil => exact absurd rfl h
  | cons a b => rfl

theorem joinWords_glue (a b : String) (l : List String) :
    joinWords ((a ++ " " ++ b) :: l) = a ++ " " ++ joinWords (b :: l) := by
  cases l with
  | nil => rfl
  | cons x xs =>
    rw [joinWords_cons (w := a ++ " " ++ b) (l := x :: xs) (by simp),
      joinWords_cons (w := b) (l := x :: xs) (by simp)]
    simp [String.append_assoc]

theorem foldl_glue (rest : List String) : ∀ x : String,
    rest.foldl (fun b l => b ++ " " ++ pyStrip l) x = joinWords (x :: rest.map pyStrip) := by
  induction rest with
  | nil => intro x; rfl
  | cons r rs ih =>
    intro x
    rw [List.foldl_cons, ih (x ++ " " ++ pyStrip r), List.map_cons, joinWords_glue]
    conv_rhs => rw [joinWords_cons (by simp)]

theorem append_space_ne_empty (a b : String) : a ++ " " ++ b ≠ "" := by
  rw [str_ne_iff_data, String.data_append, String.data_append]
  simp

theorem joinWords_stripped : ∀ ws : List String, ws ≠ [] →
    (∀ w ∈ ws, pyStrip w = w ∧ w ≠ "") →
    pyStrip (joinWords ws) = joinWords ws ∧ joinWords ws ≠ "" := by
  intro ws
  induction ws with
  | nil => intro h _; exact absurd rfl h
  | cons w rest ih =>
    intro _ hall
    cases rest with
    | nil => exact ⟨(hall w (by simp)).1, (hall w (by simp)).2⟩
    | cons w2 rest2 =>
      obtain ⟨hstr, hne⟩ := ih (by simp) (fun x hx => hall x (List.mem_cons_of_mem w hx))
      rw [joinWords_cons (by simp)]
      exact ⟨pyStrip_glue (hall w (by simp)).1 (hall w (by simp)).2 hstr hne,
        append_space_ne_empty _ _⟩

theorem noLF_joinWords : ∀ ws : List String, (∀ w ∈ ws, '\n' ∉ w.data) →
    '\n' ∉ (joinWords ws).data := by
  intro ws
  induction ws with
  | nil => intro _ h; cases h
  | cons w rest ih =>
    intro hall
    cases rest with
    | nil => exact hall w (by simp)
    | cons w2 rest2 =>
      rw [joinWords_cons (by simp), String.data_append, String.data_append]
      intro hmem
      rcases List.mem_append.mp hmem with h1 | h1
      · rcases List.mem_append.mp h1 with h2 | h2
        · exact hall w (by simp) h2
        · simp at h2
      · exact ih (fun x hx => hall x (List.mem_cons_of_mem w hx)) h1

theorem noCR_joinLinesS : ∀ ls : List String, (∀ l ∈ ls, '\r' ∉ l.data) →
    '\r' ∉ (joinLinesS ls).data := by
  intro ls
  induction ls with
  | nil => intro _ h; cases h
  | cons l rest ih =>
    intro hall
    cases rest with
    | nil => exact hall l (by simp)
    | cons l2 rest2 =>
      rw [data_joinLinesS_cons (by simp)]
      intro hmem
      rcases List.mem_append.mp hmem with h1 | h1
      · exact hall l (by simp) h1
      · rcases List.mem_cons.mp h1 with h2 | h2
        · cases h2
        · exact ih (fun x hx => hall x (List.mem_cons_of_mem l hx)) h2

/-- The accumulator run of the reflow loop over plain-text lines: every line
is appended to the paragraph buffer, separated by a single space. -/
theorem unwrapGo_plain : ∀ (ls : List String) (buf : String),
    (∀ l ∈ ls, PlainLine l) → buf ≠ "" → pyStrip buf = buf →
    unwrapGo ls buf = [ls.foldl (fun b l => b ++ " " ++ pyStrip l) buf] := by
  intro ls
  induction ls with
  | nil =>
    intro buf _ hne hstr
    show unwrapFlush buf = _
    rw [unwrapFlush, if_neg hne, hstr]
    rfl
  | cons raw rest ih =>
    intro buf hpl hne hstr
    obtain ⟨hp1, hp2, hp3, _, _⟩ := hpl raw (by simp)
    have hps : pyStrip (pyRstrip raw) = pyStrip raw := pyStrip_pyRstrip raw
    simp only [unwrapGo, hps, hp2, hp3]
    rw [if_neg hp1, if_neg (by simp), if_neg hne]
    rw [ih (buf ++ " " ++ pyStrip raw) (fun l hl => hpl l (List.mem_cons_of_mem raw hl))
      (append_space_ne_empty _ _)
      (pyStrip_glue hstr hne (pyStrip_idem raw) hp1)]
    rw [List.foldl_cons]

/-- Reflow of a nonempty run of plain-text lines: all lines are joined into
one paragraph line, separated by single spaces (claim C1's universal part). -/
theorem unwrap_plain_run (ls : List String) (hne : ls ≠ [])
    (hpl : ∀ l ∈ ls, PlainLine l) :
    unwrap_hardwrap_paragraphs (joinLinesS ls) = joinWords (ls.map pyStrip) := by
  have hnoCR : '\r' ∉ (joinLinesS ls).data :=
    noCR_joinLinesS ls fun l hl => (hpl l hl).2.2.2.2
  have hcanon : canonNL (joinLinesS ls) = joinLinesS ls := canonNL_noCR hnoCR
  have hsplit : splitLinesS (joinLinesS ls) = ls :=
    splitLinesS_joinLinesS hne fun l hl => (hpl l hl).2.2.2.1
  rw [unwrap_hardwrap_paragraphs, hcanon, hsplit]
  cases ls with
  | nil => exact absurd rfl hne
  | cons l0 rest =>
    obtain ⟨hp1, hp2, hp3, _, _⟩ := hpl l0 (by simp)
    have hps : pyStrip (pyRstrip l0) = pyStrip l0 := pyStrip_pyRstrip l0
    have hgo : unwrapGo (l0 :: rest) "" = [joinWords ((l0 :: rest).map pyStrip)] := by
      simp only [unwrapGo, hps, hp2, hp3]
      rw [if_neg hp1, if_neg (by simp), if_pos trivial]
      rw [unwrapGo_plain rest (pyStrip l0)
        (fun l hl => hpl l (List.mem_cons_of_mem l0 hl))
        hp1 (pyStrip_idem l0)]
      rw [foldl_glue, List.map_cons]
    rw [hgo]
    have hwords : ∀ w ∈ (l0 :: rest).map pyStrip, pyStrip w = w ∧ w ≠ "" := by
      intro w hw
      obtain ⟨l, hl, rfl⟩ := List.mem_map.mp hw
      exact ⟨pyStrip_idem l, (hpl l hl).1⟩
    obtain ⟨hJs, _⟩ := joinWords_stripped _ (by simp) hwords
    have hJn : '\n' ∉ (joinWords ((l0 :: rest).map pyStrip)).data := by
      apply noLF_joinWords
      intro w hw
      obtain ⟨l, hl, rfl⟩ := List.mem_map.mp hw
      intro hmem
      exact (hpl l hl).2.2.2.1 (mem_pyStripCore hmem)
    show pyStrip (collapseNL (joinLinesS [joinWords ((l0 :: rest).map pyStrip)])) = _
    rw [show joinLinesS [joinWords ((l0 :: rest).map pyStrip)]
        = joinWords ((l0 :: rest).map pyStrip) from rfl]
    rw [collapseNL_noLF hJn, hJs]

/-!  Claim theorems. -/

/-- C1: the paragraph reflow stage joins every nonempty run of plain-text
lines into one paragraph line whose pieces are separated by single spaces
(never by the original newline), and in particular maps
`"Hello\nworld.\n\n- item one\n- item two"` to exactly the paragraph line
`"Hello world."`, one blank line, and the two list lines unchanged. -/
theorem c1_reflow_joins_plain_lines :
    (∀ ls : List String, ls ≠ [] → (∀ l ∈ ls, PlainLine l) →
      unwrap_hardwrap_paragraphs (joinLinesS ls) = joinWords (ls.map pyStrip)) ∧
    unwrap_hardwrap_paragraphs "Hello\nworld.\n\n- item one\n- item two"
      = "Hello world.\n\n- item one\n- item two" :=
  ⟨unwrap_plain_run, by decide⟩

/-- Witness for C1 at the two-line run `["Hello", "world."]`. -/
theorem c1_reflow_joins_plain_lines_witness :
    unwrap_hardwrap_paragraphs (joinLinesS ["Hello", "world."])
      = joinWords (["Hello", "world."].map pyStrip) :=
  c1_reflow_joins_plain_lines.1 ["Hello", "world."] (by decide) (by decide)

/-- C2 counterexample: `_strip_page_markers` does not delete the line
`"Page 3"` between two plain-text lines; it replaces its content with the
empty string, leaving a blank line, and after reflow a spurious paragraph
break remains (deletion would have produced `"Hello\nworld"` and reflow
would then have joined `"Hello world"`). -/
theorem c2_page_marker_counterexample :
    strip_page_markers "Hello\nPage 3\nworld" ≠ "Hello\nworld" ∧
    strip_page_markers "Hello\nPage 3\nworld" = "Hello\n\nworld" ∧
    unwrap_hardwrap_paragraphs (strip_page_markers "Hello\nPage 3\nworld")
      = "Hello\n\nworld" := by
  refine ⟨by decide, by decide, by decide⟩

/-- C2 amended: the artifact-stripping stage blanks each `Page N` marker
line (removing its content but keeping a newline), so a marker between two
plain-text lines does introduce a paragraph break; when the marker line is
adjacent to an existing blank line, the matched span absorbs one newline and
the surrounding blank-line count stays at one. -/
theorem c2_page_marker_blanked :
    strip_page_markers "Hello\nPage 3\nworld" = "Hello\n\nworld" ∧
    strip_page_markers "para one.\n\nPage 3\n\npara two." = "para one.\n\npara two." ∧
    unwrap_hardwrap_paragraphs (strip_page_markers "para one.\n\nPage 3\n\npara two.")
      = "para one.\n\npara two." := by
  refine ⟨by decide, by decide, by decide⟩

/-- C9 counterexample: the full normalization sequence is not idempotent.
Inside the standardized section, a bullet line whose glyph is stripped
becomes a plain line adjacent to another plain line, and a second pass joins
the two into one paragraph. -/
theorem c9_not_idempotent :
    normalize_markdown
        (normalize_markdown "## Libraries and Tools\nalpha beta.\n• gamma delta.")
      ≠ normalize_markdown "## Libraries and Tools\nalpha beta.\n• gamma delta." := by
  decide

/-- C9 amended: normalization is not idempotent in general (see the
counterexample); on texts whose standardized section does not strip bullet
glyphs into adjacent plain lines — e.g. the reflow example of the spec —
the second pass returns the first pass's output unchanged. -/
theorem c9_idempotent_on_reflow_example :
    normalize_markdown (normalize_markdown "Hello\nworld.\n\n- item one\n- item two")
      = normalize_markdown "Hello\nworld.\n\n- item one\n- item two" ∧
    normalize_markdown "## Libraries and Tools\nalpha beta.\n• gamma delta."
      = "## Libraries and Tools\n\nalpha beta.\ngamma delta." ∧
    normalize_markdown
        (normalize_markdown "## Libraries and Tools\nalpha beta.\n• gamma delta.")
      = "## Libraries and Tools\n\nalpha beta. gamma delta." := by
  refine ⟨by decide, by decide, by decide⟩

/-!  Standardizer: first-character exclusion lemmas. -/

theorem digit_toLower {c : Char} (h : c.isDigit = true) : c.toLower = c := by
  simp only [Char.isDigit, decide_eq_true_eq, Bool.and_eq_true] at h
  have h2 : c.toNat ≤ 57 := h.2
  simp only [Char.toLower]
  rw [if_neg]
  omega

theorem digit_not_l {c : Char} (h : c.isDigit = true) : ¬c.toLower = 'l' := by
  intro hc
  rw [digit_toLower h] at hc
  subst hc
  exact absurd h (by decide)

theorem digit_not_hash {c : Char} (h : c.isDigit = true) : ¬c = '#' := by
  intro hc
  subst hc
  exact absurd h (by decide)

/-- A line accepted by the standardizer's `is_list_item` starts (after
stripping) with a bullet character or a digit. -/
theorem std_is_list_item_shape {l : String} (h : std_is_list_item l = true) :
    ∃ c rest, (pyStrip l).data.dropWhile pyIsSpace = c :: rest ∧
      (c = '-' ∨ c = '*' ∨ c = '+' ∨ c.isDigit = true) := by
  have h' : std_is_list_item l = true := h
  simp only [std_is_list_item] at h'
  split at h'
  case _ c rest heq =>
    refine ⟨c, rest, heq, ?_⟩
    split at h'
    case _ hcond =>
      rcases Bool.or_eq_true_iff.mp hcond with h2 | h2
      · rcases Bool.or_eq_true_iff.mp h2 with h3 | h3
        · exact Or.inl (by simpa using h3)
        · exact Or.inr (Or.inl (by simpa using h3))
      · exact Or.inr (Or.inr (Or.inl (by simpa using h2)))
    case _ hcond =>
      split at h'
      case _ hdig => exact Or.inr (Or.inr (Or.inr hdig))
      case _ hdig => exact absurd h' (by simp)
  case _ heq => exact absurd h' (by simp)

theorem isTitleLine_false_of_head {t : String} {c : Char} {rest : List Char}
    (h : t.data.dropWhile pyIsSpace = c :: rest)
    (h1 : ¬c = '#') (h2 : ¬c.toLower = 'l') : isTitleLine t = false := by
  rw [isTitleLine]
  simp only [h]
  have hA : (match c :: rest with
      | '#' :: '#' :: r =>
        match dropLitCI libTok (r.dropWhile pyIsSpace) with
        | some rest => rest.all pyIsSpace
        | none => false
      | _ => false) = false := by
    split
    · rename_i heq
      rw [List.cons.injEq] at heq
      exact absurd heq.1 h1
    · rfl
  have hB : (match dropLitCI libTok (c :: rest) with
      | some rest => rest.all pyIsSpace
      | none => false) = false := by
    rw [show libTok = 'L' :: "ibraries and Tools".data from rfl, dropLitCI,
      if_neg (by rw [show ('L').toLower = 'l' from rfl]; exact h2)]
  rw [hA, hB]
  rfl

theorem std_is_heading_false_of_head {l : String} {c : Char} {rest : List Char}
    (h : (pyStrip l).data.dropWhile pyIsSpace = c :: rest) (h1 : ¬c = '#') :
    std_is_heading l = false := by
  rw [std_is_heading, is_heading]
  simp only [h]
  rw [List.takeWhile_cons, if_neg (by simpa using h1)]
  rfl

theorem std_list_item_first_char {c : Char}
    (hc : c = '-' ∨ c = '*' ∨ c = '+' ∨ c.isDigit = true) :
    ¬c = '#' ∧ ¬c.toLower = 'l' := by
  rcases hc with rfl | rfl | rfl | hd
  · exact ⟨by decide, by decide⟩
  · exact ⟨by decide, by decide⟩
  · exact ⟨by decide, by decide⟩
  · exact ⟨digit_not_hash hd, digit_not_l hd⟩

theorem std_list_item_not_heading {l : String} (h : std_is_list_item l = true) :
    std_is_heading l = false := by
  obtain ⟨c, rest, hr, hc⟩ := std_is_list_item_shape h
  exact std_is_heading_false_of_head hr (std_list_item_first_char hc).1

theorem std_list_item_not_title {l : String} (h : std_is_list_item l = true) :
    isTitleLine (pyStrip l) = false := by
  obtain ⟨c, rest, hr, hc⟩ := std_is_list_item_shape h
  exact isTitleLine_false_of_head hr (std_list_item_first_char hc).1
    (std_list_item_first_char hc).2

theorem std_list_item_not_blank {l : String} (h : std_is_list_item l = true) :
    pyStrip l ≠ "" := by
  obtain ⟨c, rest, hr, _⟩ := std_is_list_item_shape h
  intro hblank
  rw [hblank] at hr
  cases hr

/-!  Standardizer: single-step behaviour inside and outside the scope. -/

/-- The loop body of the standardizer, written out (the mechanically
generated equations of `stdGo` are not usable for rewriting). -/
theorem stdGo_cons (inLib : Bool) (line : String) (rest : List String) :
    stdGo inLib (line :: rest) =
      (if isTitleLine (pyStrip line) then "## Libraries and Tools" :: stdGo true rest
       else if !(inLib && !(std_is_heading line && !containsCI (pyStrip line).data libTok)) then
         line :: stdGo (inLib && !(std_is_heading line && !containsCI (pyStrip line).data libTok)) rest
       else if pyStrip line = "" then
         "" :: stdGo (inLib && !(std_is_heading line && !containsCI (pyStrip line).data libTok)) rest
       else if std_is_list_item line then
         line :: stdGo (inLib && !(std_is_heading line && !containsCI (pyStrip line).data libTok)) rest
       else if looks_like_tool_name (clean_bullet line) then
         match rest with
         | next :: rest2 =>
           if pyStrip next ≠ "" && looks_like_description next then
             toolBullet (clean_bullet line) (clean_bullet next)
               :: stdGo (inLib && !(std_is_heading line && !containsCI (pyStrip line).data libTok)) rest2
           else toolBulletName (clean_bullet line)
               :: stdGo (inLib && !(std_is_heading line && !containsCI (pyStrip line).data libTok)) (next :: rest2)
         | [] => toolBulletName (clean_bullet line)
               :: stdGo (inLib && !(std_is_heading line && !containsCI (pyStrip line).data libTok)) []
       else clean_bullet line
               :: stdGo (inLib && !(std_is_heading line && !containsCI (pyStrip line).data libTok)) rest) := by
  cases rest with
  | nil => rfl
  | cons next rest2 => rfl

/-- In scope, a blank line is emitted as the empty line. -/
theorem stdGo_blank (raw : String) (rest : List String) (h : pyStrip raw = "") :
    stdGo true (raw :: rest) = "" :: stdGo true rest := by
  have ht : isTitleLine "" = false := by decide
  have hh : std_is_heading raw = false := by rw [std_is_heading, h]; decide
  rw [stdGo_cons, h, ht, hh]
  simp

/-- In scope, a line that is already a list item is emitted byte-identical. -/
theorem stdGo_list_item (l : String) (rest : List String)
    (h : std_is_list_item l = true) :
    stdGo true (l :: rest) = l :: stdGo true rest := by
  have ht := std_list_item_not_title h
  have hh := std_list_item_not_heading h
  have hb := std_list_item_not_blank h
  rw [stdGo_cons, ht, hh, h]
  simp [hb]

/-- In scope, a heading whose text does not contain the section-title token
ends the scope and is emitted unchanged. -/
theorem stdGo_heading_exit (l : String) (rest : List String)
    (hh : std_is_heading l = true)
    (hc : containsCI (pyStrip l).data libTok = false)
    (ht : isTitleLine (pyStrip l) = false) :
    stdGo true (l :: rest) = l :: stdGo false rest := by
  rw [stdGo_cons, ht, hh, hc]
  simp

/-- Outside the scope, non-title lines pass through unchanged. -/
theorem stdGo_outside (l : String) (rest : List String)
    (ht : isTitleLine (pyStrip l) = false) :
    stdGo false (l :: rest) = l :: stdGo false rest := by
  rw [stdGo_cons, ht]
  simp

/-- In scope, a name-candidate line followed by a description line is
consumed together with it and emits the single canonical bullet. -/
theorem stdGo_two_line (line next : String) (rest : List String)
    (h1 : isTitleLine (pyStrip line) = false)
    (h2 : std_is_heading line = false)
    (h3 : pyStrip line ≠ "")
    (h4 : std_is_list_item line = false)
    (h5 : looks_like_tool_name (clean_bullet line) = true)
    (h6 : pyStrip next ≠ "")
    (h7 : looks_like_description next = true) :
    stdGo true (line :: next :: rest)
      = toolBullet (clean_bullet line) (clean_bullet next) :: stdGo true rest := by
  rw [stdGo_cons, h1, h2, h4, h5]
  simp [h3, h6, h7]

/-- C3: inside the "Libraries and Tools" scope, a line qualifying as a tool
name whose next line qualifies as a description is consumed together with
it, emitting the single bullet `- **<name>**: <description>`; in particular
`"Flask\nA lightweight web framework for Python."` yields
`"- **Flask**: A lightweight web framework for Python."`. -/
theorem c3_two_line_tool_entry :
    (∀ (line next : String) (rest : List String),
      isTitleLine (pyStrip line) = false →
      std_is_heading line = false →
      pyStrip line ≠ "" →
      std_is_list_item line = false →
      looks_like_tool_name (clean_bullet line) = true →
      pyStrip next ≠ "" →
      looks_like_description next = true →
      stdGo true (line :: next :: rest)
        = toolBullet (clean_bullet line) (clean_bullet next) :: stdGo true rest) ∧
    standardize_tool_list_section
        "## Libraries and Tools\nFlask\nA lightweight web framework for Python."
      = "## Libraries and Tools\n- **Flask**: A lightweight web framework for Python." :=
  ⟨stdGo_two_line, by decide⟩

/-- Witness for C3 at the spec's own two-line example. -/
theorem c3_two_line_tool_entry_witness :
    stdGo true ["Flask", "A lightweight web framework for Python."]
      = toolBullet (clean_bullet "Flask")
          (clean_bullet "A lightweight web framework for Python.") :: stdGo true [] :=
  c3_two_line_tool_entry.1 "Flask" "A lightweight web framework for Python." []
    (by decide) (by decide) (by decide) (by decide) (by decide) (by decide) (by decide)

/-- C4 counterexample: a whitespace-only blank line inside the scope does
not pass through unchanged — it is emitted as the empty line. -/
theorem c4_blank_line_counterexample :
    standardize_tool_list_section "## Libraries and Tools\n "
        ≠ "## Libraries and Tools\n " ∧
    standardize_tool_list_section "## Libraries and Tools\n "
        = "## Libraries and Tools\n" := by
  refine ⟨by decide, by decide⟩

/-- C4 amended: inside the scope the standardizer never bulletizes a blank
line or an existing list item: a list-item line passes through
byte-identical, a blank line is emitted as the empty line (so a
whitespace-only blank loses its spaces), and each recognized entry of the
two-line form produces exactly one bullet line (`stdGo_two_line`). -/
theorem c4_no_new_bullets :
    (∀ (l : String) (rest : List String), std_is_list_item l = true →
      stdGo true (l :: rest) = l :: stdGo true rest) ∧
    (∀ (raw : String) (rest : List String), pyStrip raw = "" →
      stdGo true (raw :: rest) = "" :: stdGo true rest) ∧
    standardize_tool_list_section "## Libraries and Tools\n- **Flask**: A web framework."
      = "## Libraries and Tools\n- **Flask**: A web framework." :=
  ⟨stdGo_list_item, stdGo_blank, by decide⟩

/-- Witness for C4 at a correctly formatted bullet and an empty blank. -/
theorem c4_no_new_bullets_witness :
    stdGo true ["- **Flask**: A web framework."]
        = "- **Flask**: A web framework." :: stdGo true [] ∧
    stdGo true [""] = "" :: stdGo true [] :=
  ⟨c4_no_new_bullets.1 "- **Flask**: A web framework." [] (by decide),
   c4_no_new_bullets.2.1 "" [] (by decide)⟩

/-- C5 counterexample: a heading that is not the section title but contains
the substring "Libraries and Tools" does not end the scope: after
`"### More Libraries and Tools"` the standardizer keeps transforming lines
(the Flask pair is still bulletized), while the claim requires all
subsequent lines to pass through unmodified. -/
theorem c5_scope_exit_counterexample :
    standardize_tool_list_section
        ("## Libraries and Tools\n### More Libraries and Tools\nFlask\n" ++
          "A lightweight web framework for Python.")
      = "## Libraries and Tools\n### More Libraries and Tools\n" ++
          "- **Flask**: A lightweight web framework for Python." ∧
    standardize_tool_list_section
        ("## Libraries and Tools\n### More Libraries and Tools\nFlask\n" ++
          "A lightweight web framework for Python.")
      ≠ "## Libraries and Tools\n### More Libraries and Tools\nFlask\n" ++
          "A lightweight web framework for Python." := by
  refine ⟨by decide, by decide⟩

/-- C5 amended: the scope ends at the next heading whose text does not
contain "Libraries and Tools" (case-insensitively): such a heading is
emitted unchanged, the state leaves the scope, and out-of-scope lines pass
through unmodified until the title line is seen again; a non-title heading
that contains the substring does not end the scope. -/
theorem c5_scope_exit :
    (∀ (l : String) (rest : List String),
      std_is_heading l = true →
      containsCI (pyStrip l).data libTok = false →
      isTitleLine (pyStrip l) = false →
      stdGo true (l :: rest) = l :: stdGo false rest) ∧
    (∀ (l : String) (rest : List String), isTitleLine (pyStrip l) = false →
      stdGo false (l :: rest) = l :: stdGo false rest) :=
  ⟨stdGo_heading_exit, stdGo_outside⟩

/-- Witness for C5 at a heading outside the title's vocabulary. -/
theorem c5_scope_exit_witness :
    stdGo true ["## Considerations", "x"] = "## Considerations" :: stdGo false ["x"] ∧
    stdGo false ["y"] = "y" :: stdGo false [] :=
  ⟨c5_scope_exit.1 "## Considerations" ["x"] (by decide) (by decide) (by decide),
   c5_scope_exit.2 "y" [] (by decide)⟩

/-!  Filesystem lemmas for the document compiler (claim C6). -/

theorem any_key_filter_other {files : List (String × String)} {out p : String}
    (h : ¬p = out) :
    ((files.filter fun kv => !(kv.1 == out)).any fun kv => kv.1 == p)
      = files.any fun kv => kv.1 == p := by
  induction files with
  | nil => rfl
  | cons kv rest ih =>
    rw [List.filter_cons]
    by_cases hk : kv.1 = out
    · rw [if_neg (by simp [hk]), List.any_cons, ih]
      have : (kv.1 == p) = false := by
        rw [hk]
        exact beq_false_of_ne fun he => h he.symm
      rw [this, Bool.false_or]
    · rw [if_pos (by simp [hk]), List.any_cons, List.any_cons, ih]

theorem any_key_filter_self {files : List (String × String)} {p : String} :
    ((files.filter fun kv => !(kv.1 == p)).any fun kv => kv.1 == p) = false := by
  induction files with
  | nil => rfl
  | cons kv rest ih =>
    rw [List.filter_cons]
    by_cases hk : kv.1 = p
    · rw [if_neg (by simp [hk]), ih]
    · rw [if_pos (by simp [hk]), List.any_cons, ih]
      simp [hk]

theorem any_filter_imp {files : List (String × String)} {f g : String × String → Bool}
    (h : (files.filter f).any g = true) : files.any g = true := by
  induction files with
  | nil => simp at h
  | cons kv rest ih =>
    rw [List.filter_cons] at h
    rw [List.any_cons]
    by_cases hf : f kv = true
    · rw [if_pos hf, List.any_cons] at h
      rcases Bool.or_eq_true_iff.mp h with h1 | h1
      · rw [h1, Bool.true_or]
      · rw [ih h1, Bool.or_true]
    · rw [if_neg hf] at h
      rw [ih h, Bool.or_true]

theorem FS.exists_write_other {fs : FS} {out p : String} (h : p ≠ out)
    (content : String) : (fs.write out content).exists? p = fs.exists? p := by
  show ((out, content) :: fs.files.filter fun kv => !(kv.1 == out)).any
      (fun kv => kv.1 == p) = fs.files.any fun kv => kv.1 == p
  rw [List.any_cons, any_key_filter_other h]
  have : ((out, content).1 == p) = false := beq_false_of_ne fun he => h he.symm
  rw [this, Bool.false_or]

theorem FS.exists_remove_self (fs : FS) (p : String) :
    (fs.remove p).exists? p = false := any_key_filter_self

theorem FS.exists_remove_of_not (fs : FS) (q p : String)
    (h : fs.exists? p = false) : (fs.remove q).exists? p = false := by
  by_contra hh
  rw [Bool.not_eq_false] at hh
  have := any_filter_imp hh
  rw [FS.exists?] at h
  rw [this] at h
  cases h

/-- One step of the conditional-delete fold. -/
theorem removeStep_self (fs : FS) (p : String) :
    (if fs.exists? p then fs.remove p else fs).exists? p = false := by
  by_cases h : fs.exists? p = true
  · rw [if_pos h]
    exact fs.exists_remove_self p
  · rw [if_neg h]
    exact Bool.not_eq_true _ |>.mp h

theorem removeStep_keep_not (fs : FS) (q p : String) (h : fs.exists? p = false) :
    (if fs.exists? q then fs.remove q else fs).exists? p = false := by
  by_cases hq : fs.exists? q = true
  · rw [if_pos hq]
    exact fs.exists_remove_of_not q p h
  · rw [if_neg hq]
    exact h

/-- After the success-path fold, none of the intermediate files exists. -/
theorem fold_removes_intermediates (fs : FS) :
    ∀ p ∈ intermediate_files,
      (intermediate_files.foldl
        (fun acc q => if acc.exists? q then acc.remove q else acc) fs).exists? p
        = false := by
  intro p hp
  rw [show intermediate_files.foldl
      (fun acc q => if acc.exists? q then acc.remove q else acc) fs
    = (let f1 := if fs.exists? "lite_output/1_spec.md"
          then fs.remove "lite_output/1_spec.md" else fs
       let f2 := if f1.exists? "lite_output/2_tech_stack.md"
          then f1.remove "lite_output/2_tech_stack.md" else f1
       if f2.exists? "lite_output/3_mvp_skeleton.md"
          then f2.remove "lite_output/3_mvp_skeleton.md" else f2) from rfl]
  rcases show p = "lite_output/1_spec.md" ∨ p = "lite_output/2_tech_stack.md"
      ∨ p = "lite_output/3_mvp_skeleton.md" by
    simpa [intermediate_files] using hp with rfl | rfl | rfl
  · exact removeStep_keep_not _ _ _ (removeStep_keep_not _ _ _ (removeStep_self _ _))
  · exact removeStep_keep_not _ _ _ (removeStep_self _ _)
  · exact removeStep_self _ _

/-- C6 counterexample: `_run` consumes only two section files plus the code
file, not three section files.  With four files present — the two mapped
section files, a third section file and the code file — a successful
compile deletes only the three hard-coded paths, and the third section file
still exists afterward, contradicting "deletes all four". -/
theorem c6_four_files_counterexample :
    (pdfRun id (fun _ => 0)
        ⟨[("lite_output/1_spec.md", "Alpha."), ("lite_output/2_tech_stack.md", "Beta."),
          ("lite_output/4_more.md", "Gamma."), ("lite_output/3_mvp_skeleton.md", "print(1)")]⟩
        "lite_output/final_report.pdf").1
      = "Successfully compiled PDF report at: lite_output/final_report.pdf" ∧
    (pdfRun id (fun _ => 0)
        ⟨[("lite_output/1_spec.md", "Alpha."), ("lite_output/2_tech_stack.md", "Beta."),
          ("lite_output/4_more.md", "Gamma."), ("lite_output/3_mvp_skeleton.md", "print(1)")]⟩
        "lite_output/final_report.pdf").2.exists? "lite_output/4_more.md" = true ∧
    (pdfRun id (fun _ => 0)
        ⟨[("lite_output/1_spec.md", "Alpha."), ("lite_output/2_tech_stack.md", "Beta."),
          ("lite_output/4_more.md", "Gamma."), ("lite_output/3_mvp_skeleton.md", "print(1)")]⟩
        "lite_output/final_report.pdf").2.exists? "lite_output/1_spec.md" = false := by
  refine ⟨by decide, by decide, by decide⟩

/-- C6 amended: when the renderer reports failure the compiler returns a
failure result carrying the renderer's error value and deletes no files
(every path other than the written artifact is untouched); when the
renderer succeeds it returns a success result naming the artifact path and
deletes the consumed intermediate files — the two mapped section files and
the code file. -/
theorem c6_render_outcome :
    (∀ (mdR : String → String) (pe : String → Nat) (fs : FS) (out : String),
      pe (buildHtml mdR fs) ≠ 0 →
        (pdfRun mdR pe fs out).1
            = "Error creating PDF: " ++ toString (pe (buildHtml mdR fs)) ∧
        ∀ p, p ≠ out → (pdfRun mdR pe fs out).2.exists? p = fs.exists? p) ∧
    (∀ (mdR : String → String) (pe : String → Nat) (fs : FS) (out : String),
      pe (buildHtml mdR fs) = 0 →
        (pdfRun mdR pe fs out).1 = "Successfully compiled PDF report at: " ++ out ∧
        ∀ p ∈ intermediate_files, (pdfRun mdR pe fs out).2.exists? p = false) := by
  constructor
  · intro mdR pe fs out herr
    rw [pdfRun]
    rw [if_pos herr]
    exact ⟨rfl, fun p hp => FS.exists_write_other hp _⟩
  · intro mdR pe fs out hok
    rw [pdfRun]
    rw [if_neg (by rw [hok]; exact fun h => h rfl)]
    exact ⟨rfl, fold_removes_intermediates _⟩

/-- Witness for C6 in both renderer outcomes on an empty filesystem. -/
theorem c6_render_outcome_witness :
    ((pdfRun id (fun _ => 1) (FS.mk []) "out.pdf").1
        = "Error creating PDF: " ++ toString ((fun _ : String => 1) (buildHtml id (FS.mk []))) ∧
      ∀ p, p ≠ "out.pdf" →
        (pdfRun id (fun _ => 1) (FS.mk []) "out.pdf").2.exists? p = (FS.mk []).exists? p) ∧
    ((pdfRun id (fun _ => 0) (FS.mk []) "out.pdf").1
        = "Successfully compiled PDF report at: " ++ "out.pdf" ∧
      ∀ p ∈ intermediate_files,
        (pdfRun id (fun _ => 0) (FS.mk []) "out.pdf").2.exists? p = false) :=
  ⟨c6_render_outcome.1 id (fun _ => 1) (FS.mk []) "out.pdf" (by decide),
   c6_render_outcome.2 id (fun _ => 0) (FS.mk []) "out.pdf" (by decide)⟩

/-!  Code-fence stripping in the compiler (claim C7). -/

theorem joinLinesS_append_singleton (L : List String) (e : String) :
    ∃ X, (joinLinesS (L ++ [e])).data = X ++ e.data := by
  induction L with
  | nil => exact ⟨[], rfl⟩
  | cons l L' ih =>
    obtain ⟨X', hX⟩ := ih
    refine ⟨l.data ++ '\n' :: X', ?_⟩
    rw [List.cons_append, data_joinLinesS_cons (by simp), hX]
    simp

theorem rstripNewlines_of_last {s : String} {x : List Char} {d : Char}
    (hs : s.data = x ++ [d]) (hd : ¬d = '\n') : rstripNewlines s = s := by
  apply String.ext
  show ((s.data.reverse).dropWhile (· = '\n')).reverse = s.data
  rw [hs, List.reverse_append]
  simp only [List.reverse_cons, List.reverse_nil, List.nil_append, List.singleton_append]
  rw [dropWhile_cons_neg _ (by simp [hd])]
  simp

/-- The compiler's fence stripping on a well-formed wrapper: exactly the
opening marker line and the closing marker line are removed, and the
interior lines (whose last line is nonempty) are kept verbatim; interior
text is never pattern-matched for fences. -/
theorem stripCodeFence_wrapped (tag lst : String) (L0 : List String)
    (hnl : ∀ l ∈ L0, '\n' ∉ l.data) (hlst : '\n' ∉ lst.data)
    (htag : '\n' ∉ tag.data) (hlne : lst ≠ "") :
    stripCodeFence (joinLinesS (("```" ++ tag) :: ((L0 ++ [lst]) ++ ["```"])))
      = joinLinesS (L0 ++ [lst]) := by
  have hdata3 : ("```" ++ tag).data = '`' :: '`' :: '`' :: tag.data := by
    rw [String.data_append]
    rfl
  have hJ := data_joinLinesS_cons
    (l := "```" ++ tag) (t := (L0 ++ [lst]) ++ ["```"]) (by simp)
  rw [hdata3] at hJ
  have hshape : (joinLinesS (("```" ++ tag) :: ((L0 ++ [lst]) ++ ["```"]))).data
      = '`' :: '`' :: '`' ::
        (tag.data ++ '\n' :: (joinLinesS ((L0 ++ [lst]) ++ ["```"])).data) := by
    rw [hJ]
    simp
  -- the whole text is strip-fixed: it starts and ends with a backtick
  have hstrip : pyStrip (joinLinesS (("```" ++ tag) :: ((L0 ++ [lst]) ++ ["```"])))
      = joinLinesS (("```" ++ tag) :: ((L0 ++ [lst]) ++ ["```"])) := by
    apply String.ext
    show pyStripCore _ = _
    obtain ⟨X, hX⟩ := joinLinesS_append_singleton (("```" ++ tag) :: (L0 ++ [lst])) "```"
    rw [List.cons_append] at hX
    have hL : pyStripL (joinLinesS (("```" ++ tag) :: ((L0 ++ [lst]) ++ ["```"]))).data
        = (joinLinesS (("```" ++ tag) :: ((L0 ++ [lst]) ++ ["```"]))).data := by
      rw [hshape]
      exact pyStripL_cons_neg _ (by decide)
    have hR : pyStripR (joinLinesS (("```" ++ tag) :: ((L0 ++ [lst]) ++ ["```"]))).data
        = (joinLinesS (("```" ++ tag) :: ((L0 ++ [lst]) ++ ["```"]))).data := by
      rw [hX, show ("```" : String).data = ['`', '`', '`'] from rfl,
        show X ++ ['`', '`', '`'] = (X ++ ['`', '`']) ++ ['`'] by simp]
      exact pyStripR_concat_neg _ (by decide)
    rw [pyStripCore, hL, hR]
  have hnoLF : ∀ l ∈ ("```" ++ tag) :: ((L0 ++ [lst]) ++ ["```"]), '\n' ∉ l.data := by
    intro l hl
    rcases List.mem_cons.mp hl with rfl | hl2
    · rw [hdata3]
      intro hmem
      simp only [List.mem_cons] at hmem
      rcases hmem with h | h | h | h
      · cases h
      · cases h
      · cases h
      · exact htag h
    · rcases List.mem_append.mp hl2 with hl3 | hl3
      · rcases List.mem_append.mp hl3 with hl4 | hl4
        · exact hnl l hl4
        · rw [List.mem_singleton.mp hl4]
          exact hlst
      · rw [List.mem_singleton.mp hl3]
        decide
  have hsplit : splitLinesS (joinLinesS (("```" ++ tag) :: ((L0 ++ [lst]) ++ ["```"])))
      = ("```" ++ tag) :: ((L0 ++ [lst]) ++ ["```"]) :=
    splitLinesS_joinLinesS (by simp) hnoLF
  rw [stripCodeFence]
  simp only [hstrip, hsplit]
  rw [if_pos (by rw [hshape]; rfl)]
  rw [if_pos (by simp)]
  rw [show ((("```" ++ tag) :: ((L0 ++ [lst]) ++ ["```"])).drop 1).dropLast
      = L0 ++ [lst] by rw [show (("```" ++ tag) :: ((L0 ++ [lst]) ++ ["```"])).drop 1
          = (L0 ++ [lst]) ++ ["```"] from rfl]; exact List.dropLast_concat]
  obtain ⟨y, d, hyd⟩ : ∃ y d, lst.data = y ++ [d] := by
    obtain ⟨y, d, h⟩ := exists_concat_of_ne_nil (str_ne_iff_data.mp hlne)
    exact ⟨y, d, h⟩
  obtain ⟨X2, hX2⟩ := joinLinesS_append_singleton L0 lst
  exact rstripNewlines_of_last (x := X2 ++ y) (d := d)
    (by rw [hX2, hyd]; simp)
    (fun hdn => hlst (by rw [hyd, hdn]; simp))

/-- The html assembled when only the raw-code file exists: the code is
embedded escaped and fence-stripped, with no reflow or standardization
applied (the two section slots are empty). -/
def codeOnlyHtml (raw : String) : String :=
  "<html><head>" ++ cssStyle ++ "</head><body>" ++ footerDiv ++
    "<h1>Project Final Report</h1><p>Generated by SaaS Launchpad Crew</p>" ++ "<hr>" ++
    "" ++ "" ++
    ("<h2>Phase 3: MVP Skeleton Code</h2>" ++
      "<pre class=\x27code-box\x27>" ++ htmlEscape (stripCodeFence raw) ++ "</pre>") ++
    "</body></html>"

theorem buildHtml_code_only (mdR : String → String) (raw : String) :
    buildHtml mdR ⟨[(code_path, raw)]⟩ = codeOnlyHtml raw := by
  have h1 : (FS.mk [(code_path, raw)]).exists? "lite_output/1_spec.md" = false := by
    show ((code_path == "lite_output/1_spec.md") || false) = false
    decide
  have h2 : (FS.mk [(code_path, raw)]).exists? "lite_output/2_tech_stack.md" = false := by
    show ((code_path == "lite_output/2_tech_stack.md") || false) = false
    decide
  have h3 : (FS.mk [(code_path, raw)]).exists? code_path = true := by
    show ((code_path == code_path) || false) = true
    decide
  have h4 : (FS.mk [(code_path, raw)]).read code_path = raw := by
    show (((if (code_path == code_path) = true then some (code_path, raw) else
      List.find? (fun kv => kv.1 == code_path) []).map Prod.snd).getD "") = raw
    rw [if_pos (by decide)]
    rfl
  rw [buildHtml, codeOnlyHtml, sectionPart, sectionPart, codeSection,
    if_neg (by rw [h1]; exact fun h => Bool.false_ne_true h),
    if_neg (by rw [h2]; exact fun h => Bool.false_ne_true h),
    if_pos h3, h4]

/-- C7 counterexample: when the raw-code file begins with a fence marker but
has no closing marker line, the compiler still removes the final line — here
the content line `"line two"` — so it does not strip "exactly one opening
marker line and one closing marker line" while preserving interior content. -/
theorem c7_unclosed_fence_counterexample :
    stripCodeFence "```python\nline one\nline two" = "line one" ∧
    ("line one" : String) ≠ "line one\nline two" := by
  refine ⟨by decide, by decide⟩

/-- C7 amended: the compiler strips the first line and the last line of a
code file that begins with ` ``` `: for a well-formed wrapper (closing
marker line present, last interior line nonempty) exactly the two marker
lines are removed and every interior line is preserved, fences are never
pattern-matched mid-content, and the result is embedded as an escaped
preformatted block without reflow or standardization; when no closing
marker exists, the final content line is removed instead. -/
theorem c7_fence_strip :
    (∀ (tag lst : String) (L0 : List String),
      (∀ l ∈ L0, '\n' ∉ l.data) → '\n' ∉ lst.data → '\n' ∉ tag.data → lst ≠ "" →
      stripCodeFence (joinLinesS (("```" ++ tag) :: ((L0 ++ [lst]) ++ ["```"])))
        = joinLinesS (L0 ++ [lst])) ∧
    (∀ (mdR : String → String) (raw : String),
      buildHtml mdR ⟨[(code_path, raw)]⟩ = codeOnlyHtml raw) ∧
    stripCodeFence "```python\nline one\nline two" = "line one" :=
  ⟨stripCodeFence_wrapped, buildHtml_code_only, by decide⟩

/-- Witness for C7 at a fenced two-line python snippet. -/
theorem c7_fence_strip_witness :
    stripCodeFence (joinLinesS (("```" ++ "py") :: ((["import os"] ++ ["print(1)"]) ++ ["```"])))
      = joinLinesS (["import os"] ++ ["print(1)"]) ∧
    buildHtml id ⟨[(code_path, "```py\nprint(1)\n```")]⟩
      = codeOnlyHtml "```py\nprint(1)\n```" :=
  ⟨c7_fence_strip.1 "py" "print(1)" ["import os"]
      (by decide) (by decide) (by decide) (by decide),
   c7_fence_strip.2.1 id "```py\nprint(1)\n```"⟩

/-!  Heading promotion (claim C8). -/

theorem dropLitCI_self : ∀ (lit u : List Char), dropLitCI lit (lit ++ u) = some u := by
  intro lit
  induction lit with
  | nil => intro u; rfl
  | cons p ps ih =>
    intro u
    rw [List.cons_append, dropLitCI, if_pos rfl, ih]

/-- The exact-match pattern succeeds on a line whose strip equals the word,
consuming the whole line. -/
theorem sectionMatcher_some_of_strip {w repl cs : List Char}
    (h : pyStripCore cs = w) : sectionMatcher w repl cs = some (repl, []) := by
  obtain ⟨u, hu, hws⟩ := pyStripR_decomp (pyStripL cs)
  rw [pyStripCore] at h
  rw [h] at hu
  rw [sectionMatcher, show cs.dropWhile pyIsSpace = w ++ u from hu, dropLitCI_self]
  simp only [trailingWsDollar]
  rw [if_pos (by simp [all_ws_dropWhile_nil hws])]
  rfl

theorem sectionMatcher_none_head {a : Char} {w repl cs : List Char} {c : Char}
    {r : List Char} (h : cs.dropWhile pyIsSpace = c :: r)
    (hne : ¬c.toLower = a.toLower) :
    sectionMatcher (a :: w) repl cs = none := by
  rw [sectionMatcher, h, dropLitCI, if_neg hne]

theorem promoteWord_id_of_none {w s : String} (hnl : '\n' ∉ s.data)
    (hm : sectionMatcher w.data ("## " ++ w).data s.data = none) :
    promoteWord w s = s := by
  apply String.ext
  show subLineAnchored _ s.data.length true s.data = s.data
  exact subLineAnchored_true_none _ hnl hm

theorem promoteWord_exact {w s : String} (hst : pyStrip s = w) (hne : s ≠ "") :
    promoteWord w s = "## " ++ w := by
  obtain ⟨c, rest, hs⟩ : ∃ c rest, s.data = c :: rest := by
    cases hd : s.data with
    | nil => exact absurd (String.ext hd) hne
    | cons c rest => exact ⟨c, rest, rfl⟩
  have hm : sectionMatcher w.data ("## " ++ w).data (c :: rest)
      = some (("## " ++ w).data, []) := by
    apply sectionMatcher_some_of_strip
    rw [← hs]
    exact data_eq_of_eq hst
  apply String.ext
  show subLineAnchored _ s.data.length true s.data = ("## " ++ w).data
  rw [hs, show (c :: rest).length = rest.length + 1 from rfl]
  exact subLineAnchored_true_all rest.length hm

/-- Promotion of an exactly matching standalone "Risks" line: the other
vocabulary passes leave it unchanged, the "Risks" pass rewrites it. -/
theorem promote_standalone_risks (s : String) (hst : pyStrip s = "Risks")
    (hnl : '\n' ∉ s.data) : promoteSections s = "## Risks" := by
  have hne : s ≠ "" := by
    intro h
    rw [h] at hst
    exact absurd hst (by decide)
  obtain ⟨u, hu, hws⟩ := pyStripR_decomp (pyStripL s.data)
  have hcore : pyStripR (pyStripL s.data) = "Risks".data := data_eq_of_eq hst
  rw [hcore] at hu
  have hmid : s.data.dropWhile pyIsSpace = 'R' :: ("isks".data ++ u) := by
    rw [show s.data.dropWhile pyIsSpace = pyStripL s.data from rfl, hu]
    rfl
  have pO : promoteWord "Overview" s = s :=
    promoteWord_id_of_none hnl
      (sectionMatcher_none_head (a := 'O') (w := "verview".data) hmid (by decide))
  have pF : promoteWord "Features" s = s :=
    promoteWord_id_of_none hnl
      (sectionMatcher_none_head (a := 'F') (w := "eatures".data) hmid (by decide))
  have pR : promoteWord "Risks" s = "## Risks" := promoteWord_exact hst hne
  rw [promoteSections, section_words]
  simp only [List.foldl_cons, List.foldl_nil]
  rw [pO, pF, pR]
  decide

/-- C8 counterexample: heading promotion does more than rewrite the matched
line — the pattern's `\s*` spans line endings, so promoting the standalone
`"Risks"` line also deletes the blank line before it and the blank line
after it, changing other lines of the text. -/
theorem c8_blank_absorption_counterexample :
    promoteSections "x\n\nRisks\n\ny" = "x\n## Risks\ny" ∧
    promoteSections "x\n\nRisks\n\ny" ≠ "x\n\n## Risks\n\ny" := by
  refine ⟨by decide, by decide⟩

/-- C8 amended: a line whose trimmed content equals a vocabulary word (the
"Risks" case, exact match) and is not heading-marked becomes the
second-level heading `## Risks`; non-matching lines such as
`"Risks and considerations"` and already-marked headings are unchanged —
but the rewrite also absorbs whitespace (including blank lines) adjacent to
the matched line, so surrounding lines are not always preserved. -/
theorem c8_heading_promotion :
    (∀ s : String, pyStrip s = "Risks" → '\n' ∉ s.data →
      promoteSections s = "## Risks") ∧
    promoteSections "Risks" = "## Risks" ∧
    promoteSections "Risks and considerations" = "Risks and considerations" ∧
    promoteSections "## Risks" = "## Risks" :=
  ⟨promote_standalone_risks, by decide, by decide, by decide⟩

/-- Witness for C8 at a whitespace-padded standalone "Risks" line. -/
theorem c8_heading_promotion_witness :
    promoteSections " Risks " = "## Risks" :=
  c8_heading_promotion.1 " Risks " (by decide) (by decide)

/-!  Line-ending insensitivity (claim C10). -/

/-- Replace every `'\n'` by the Windows ending `"\r\n"`. -/
def crlfData : List Char → List Char
  | [] => []
  | c :: r => if c = '\n' then '\r' :: '\n' :: crlfData r else c :: crlfData r

/-- `withCRLF s` is `s` with every line ending written as `"\r\n"`. -/
def withCRLF (s : String) : String := ⟨crlfData s.data⟩

/-- Replace every `'\n'` by a bare `'\r'` (classic Mac line endings). -/
def crData : List Char → List Char
  | [] => []
  | c :: r => if c = '\n' then '\r' :: crData r else c :: crData r

/-- `withCR s` is `s` with every line ending written as `"\r"`. -/
def withCR (s : String) : String := ⟨crData s.data⟩

theorem crlfData_nil_iff {cs : List Char} : crlfData cs = [] ↔ cs = [] := by
  cases cs with
  | nil => simp [crlfData]
  | cons c r =>
    constructor
    · intro h
      rw [crlfData] at h
      by_cases hc : c = '\n'
      · rw [if_pos hc] at h; cases h
      · rw [if_neg hc] at h; cases h
    · intro h; cases h

theorem crData_nil_iff {cs : List Char} : crData cs = [] ↔ cs = [] := by
  cases cs with
  | nil => simp [crData]
  | cons c r =>
    constructor
    · intro h
      rw [crData] at h
      by_cases hc : c = '\n'
      · rw [if_pos hc] at h; cases h
      · rw [if_neg hc] at h; cases h
    · intro h; cases h

theorem crData_noLF (cs : List Char) : '\n' ∉ crData cs := by
  induction cs with
  | nil => intro h; cases h
  | cons c r ih =>
    rw [crData]
    by_cases hc : c = '\n'
    · rw [if_pos hc]
      intro h
      rcases List.mem_cons.mp h with h1 | h1
      · cases h1
      · exact ih h1
    · rw [if_neg hc]
      intro h
      rcases List.mem_cons.mp h with h1 | h1
      · exact hc h1.symm
      · exact ih h1

/-- Replacing `"\r\n"` by `"\n"` on the CRLF expansion recovers the
original newline-only text. -/
theorem replaceCore_crlf : ∀ (cs : List Char) (fuel : Nat), '\r' ∉ cs →
    (crlfData cs).length ≤ fuel →
    pyReplaceCore "\r\n".data "\n".data fuel (crlfData cs) = cs := by
  intro cs
  induction cs with
  | nil => intro fuel _ _; cases fuel <;> rfl
  | cons c r ih =>
    intro fuel hcr hfuel
    have hcr' : '\r' ∉ r := fun h => hcr (List.mem_cons_of_mem c h)
    by_cases hc : c = '\n'
    · subst hc
      rw [crlfData, if_pos rfl] at hfuel ⊢
      cases fuel with
      | zero => simp at hfuel
      | succ f =>
        rw [pyReplaceCore]
        simp only [show dropLit "\r\n".data ('\r' :: '\n' :: crlfData r)
            = some (crlfData r) from rfl]
        rw [if_neg (by decide)]
        rw [ih f hcr' (by simp at hfuel; omega)]
        rfl
    · have hcr2 : ¬c = '\r' := fun h => hcr (by rw [h]; exact List.mem_cons_self _ _)
      rw [crlfData, if_neg hc] at hfuel ⊢
      cases fuel with
      | zero => simp at hfuel
      | succ f =>
        rw [pyReplaceCore]
        simp only [show dropLit "\r\n".data (c :: crlfData r) = none by
          rw [show ("\r\n" : String).data = '\r' :: ['\n'] from rfl, dropLit,
            if_neg hcr2]]
        rw [ih f hcr' (by simp at hfuel; omega)]

theorem replaceCore_rn_noLF (repl : List Char) :
    ∀ (cs : List Char) (fuel : Nat), '\n' ∉ cs →
      pyReplaceCore "\r\n".data repl fuel cs = cs := by
  intro cs
  induction cs with
  | nil => intro fuel _; cases fuel <;> rfl
  | cons c r ih =>
    intro fuel hnl
    have hnl' : '\n' ∉ r := fun h => hnl (List.mem_cons_of_mem c h)
    cases fuel with
    | zero => rfl
    | succ f =>
      rw [pyReplaceCore]
      simp only [show dropLit "\r\n".data (c :: r) = none by
        rw [show ("\r\n" : String).data = '\r' :: ['\n'] from rfl, dropLit]
        by_cases hc : c = '\r'
        · rw [if_pos hc]
          cases r with
          | nil => rfl
          | cons d r2 =>
            rw [dropLit, if_neg (fun h => hnl (by rw [h]; simp))]
        · rw [if_neg hc]]
      rw [ih f hnl']

/-- Replacing `"\r"` by `"\n"` on the CR expansion recovers the original. -/
theorem replaceCore_cr : ∀ (cs : List Char) (fuel : Nat), '\r' ∉ cs →
    (crData cs).length ≤ fuel →
    pyReplaceCore "\r".data "\n".data fuel (crData cs) = cs := by
  intro cs
  induction cs with
  | nil => intro fuel _ _; cases fuel <;> rfl
  | cons c r ih =>
    intro fuel hcr hfuel
    have hcr' : '\r' ∉ r := fun h => hcr (List.mem_cons_of_mem c h)
    by_cases hc : c = '\n'
    · subst hc
      rw [crData, if_pos rfl] at hfuel ⊢
      cases fuel with
      | zero => simp at hfuel
      | succ f =>
        rw [pyReplaceCore]
        simp only [show dropLit "\r".data ('\r' :: crData r) = some (crData r) from rfl]
        rw [if_neg (by decide)]
        rw [ih f hcr' (by simp at hfuel; omega)]
        rfl
    · have hcr2 : ¬c = '\r' := fun h => hcr (by rw [h]; exact List.mem_cons_self _ _)
      rw [crData, if_neg hc] at hfuel ⊢
      cases fuel with
      | zero => simp at hfuel
      | succ f =>
        rw [pyReplaceCore]
        simp only [show dropLit "\r".data (c :: crData r) = none by
          rw [show ("\r" : String).data = ['\r'] from rfl, dropLit, if_neg hcr2]]
        rw [ih f hcr' (by simp at hfuel; omega)]

theorem canonNL_withCRLF {s : String} (h : '\r' ∉ s.data) :
    canonNL (withCRLF s) = s := by
  have h1 : pyReplace "\r\n" "\n" (withCRLF s) = s := by
    apply String.ext
    show pyReplaceCore "\r\n".data "\n".data (crlfData s.data).length (crlfData s.data)
      = s.data
    exact replaceCore_crlf s.data _ h le_rfl
  rw [canonNL, h1]
  exact String.ext (replaceCore_head_notMem s.data s.data.length h)

theorem canonNL_withCR {s : String} (h : '\r' ∉ s.data) :
    canonNL (withCR s) = s := by
  have h1 : pyReplace "\r\n" "\n" (withCR s) = withCR s := by
    apply String.ext
    exact replaceCore_rn_noLF _ (crData s.data) _ (crData_noLF s.data)
  rw [canonNL, h1]
  apply String.ext
  show pyReplaceCore "\r".data "\n".data (crData s.data).length (crData s.data) = s.data
  exact replaceCore_cr s.data _ h le_rfl

/-- C10: normalization is insensitive to the input's line-ending
convention: rewriting the line endings of a `\r`-free text as `"\r\n"` or
as bare `"\r"` yields byte-identical normalized output, because the text is
canonicalized to `"\n"` endings before any other processing. -/
theorem c10_line_ending_insensitive :
    ∀ s : String, '\r' ∉ s.data →
      normalize_markdown (withCRLF s) = normalize_markdown s ∧
      normalize_markdown (withCR s) = normalize_markdown s := by
  intro s h
  by_cases hs : s = ""
  · subst hs
    exact ⟨rfl, rfl⟩
  · have h1 : withCRLF s ≠ "" := by
      rw [str_ne_iff_data]
      show crlfData s.data ≠ []
      rw [Ne, crlfData_nil_iff]
      exact str_ne_iff_data.mp hs
    have h2 : withCR s ≠ "" := by
      rw [str_ne_iff_data]
      show crData s.data ≠ []
      rw [Ne, crData_nil_iff]
      exact str_ne_iff_data.mp hs
    constructor
    · rw [normalize_markdown, normalize_markdown, if_neg h1, if_neg hs,
        canonNL_withCRLF h, canonNL_noCR h]
    · rw [normalize_markdown, normalize_markdown, if_neg h2, if_neg hs,
        canonNL_withCR h, canonNL_noCR h]

/-- Witness for C10 at a two-line text. -/
theorem c10_line_ending_insensitive_witness :
    normalize_markdown (withCRLF "Hello\nworld.") = normalize_markdown "Hello\nworld." ∧
    normalize_markdown (withCR "Hello\nworld.") = normalize_markdown "Hello\nworld." :=
  c10_line_ending_insensitive "Hello\nworld." (by decide)

end PDFReport
